import Mathlib

/-!
Verification development for the `sphericalmercator` Rust library
(`src/lib.rs`, a port of mapbox/sphericalmercator).

Modelling conventions:
* `f64` arithmetic is modelled over the exact real numbers `ℝ`; the
  transcendental functions (`sin`, `ln`, `exp`, `atan`, `tan`) are the
  corresponding `Real` functions.
* `u32`/`usize` arithmetic is modelled on `ℕ` with explicit wrapping
  (`% 2 ^ 32`, release-mode overflow semantics) and the saturating `as`
  casts of Rust.
* A Rust panic (`Vec` indexing out of bounds, which panics in every build
  profile) is modelled by `Option.none`; operations that cannot panic are
  total functions.
-/

noncomputable section

open scoped Classical

namespace SM

/-- Rust `f64::to_radians`: multiplication by π/180. -/
def toRadians (x : ℝ) : ℝ := x * (Real.pi / 180)

/-- Rust `f64::to_degrees`: multiplication by 180/π. -/
def toDegrees (x : ℝ) : ℝ := x * (180 / Real.pi)

/-- Rust `f64::clamp lo hi` (for `lo ≤ hi`, finite arguments). -/
def fClamp (x lo hi : ℝ) : ℝ := max lo (min hi x)

/-- Rust `f64::trunc`: round toward zero. -/
def fTrunc (x : ℝ) : ℝ := if 0 ≤ x then (⌊x⌋ : ℝ) else (⌈x⌉ : ℝ)

/-- Rust `f64::fract`: `x - x.trunc()`. -/
def fFract (x : ℝ) : ℝ := x - fTrunc x

/-- Rust `f64::round`: round half away from zero. -/
def fRound (x : ℝ) : ℝ := if 0 ≤ x then (⌊x + 1 / 2⌋ : ℝ) else (⌈x - 1 / 2⌉ : ℝ)

/-- Rust `as usize` applied to an `f64`: truncate toward zero, saturating
at `0` and `usize::MAX`. -/
def usizeOfF64 (x : ℝ) : ℕ := min (2 ^ 64 - 1) (⌊x⌋.toNat)

/-- Rust `.floor() as u32` applied to an `f64`: floor, then truncate with
saturation at `0` and `u32::MAX`. -/
def u32OfF64 (x : ℝ) : ℕ := min (2 ^ 32 - 1) (⌊x⌋.toNat)

/-- Wrapping `u32` subtraction (release-mode Rust overflow semantics),
for arguments `< 2 ^ 32`. -/
def u32sub (a b : ℕ) : ℕ := (a + 2 ^ 32 - b % 2 ^ 32) % 2 ^ 32

/-- Wrapping `2_u32.pow z` (release-mode Rust overflow semantics). -/
def u32pow2 (z : ℕ) : ℕ := 2 ^ z % 2 ^ 32

/-- `const A: f64 = 6378137.0` (Earth radius, metres). -/
def A : ℝ := 6378137

/-- `const MAXEXTENT: f64 = 20037508.342789244` (Web-Mercator max extent). -/
def MAXEXTENT : ℝ := 20037508.342789244

/-- `pub struct XYZBounds` — inclusive tile index range (`u32` fields). -/
structure XYZBounds where
  min_x : ℕ
  min_y : ℕ
  max_x : ℕ
  max_y : ℕ
deriving DecidableEq

/-- `pub struct BBox` — bounding box `{w, s, e, n}` (`f64` fields). -/
structure BBox where
  w : ℝ
  s : ℝ
  e : ℝ
  n : ℝ

/-- `pub struct LonLatPoint`. -/
structure LonLatPoint where
  lon : ℝ
  lat : ℝ

/-- `pub struct XYPoint`. -/
structure XYPoint where
  x : ℝ
  y : ℝ

/-- `pub struct SphericalMercator` — engine state: tile size, antimeridian
expansion factor and the four 30-entry scale tables. -/
structure SphericalMercator where
  size : ℕ
  expansion : ℝ
  bc : List ℝ
  cc : List ℝ
  zc : List ℝ
  ac : List ℝ

/-- The table-construction loop in `new_with_size_and_antimeridian`:
starting from the running size `s`, push `s/360`, `s/(2π)`, `s/2`, `s`
onto the four tables and double `s`, `n` times. -/
def buildTables : ℕ → ℝ → List ℝ × List ℝ × List ℝ × List ℝ
  | 0, _ => ([], [], [], [])
  | n + 1, s =>
    let rest := buildTables n (s * 2)
    (s / 360 :: rest.1, s / (2 * Real.pi) :: rest.2.1,
     s / 2 :: rest.2.2.1, s :: rest.2.2.2)

/-- `SphericalMercator::new_with_size_and_antimeridian`. -/
def new_with_size_and_antimeridian (size : ℕ) (antimeridian : Bool) :
    SphericalMercator :=
  let t := buildTables 30 (size : ℝ)
  ⟨size, if antimeridian then 2 else 1, t.1, t.2.1, t.2.2.1, t.2.2.2⟩

/-- `SphericalMercator::new`: tile size 256, antimeridian disabled. -/
def new : SphericalMercator := new_with_size_and_antimeridian 256 false

/-- `SphericalMercator::is_float`: `n.fract() != 0.0`. -/
def is_float (n : ℝ) : Prop := fFract n ≠ 0

/-- `SphericalMercator::px`: lon/lat to screen pixel at a zoom.
`none` models the out-of-bounds table-index panic (whole-number
zoom whose saturated `usize` cast is ≥ 30). -/
def px (m : SphericalMercator) (p : LonLatPoint) (zoom : ℝ) : Option XYPoint :=
  if is_float zoom then
    let size : ℝ := (m.size : ℝ) * (2 : ℝ) ^ zoom
    let d := size / 2
    let bc := size / 360
    let cc := size / (2 * Real.pi)
    let ac := size
    let f := fClamp (Real.sin (toRadians p.lat)) (-0.9999) 0.9999
    let x := d + p.lon * bc
    let y := d + 0.5 * Real.log ((1 + f) / (1 - f)) * (-cc)
    let x2 := if ac * m.expansion < x then ac * m.expansion else x
    let y2 := if ac < y then ac else y
    some ⟨x2, y2⟩
  else
    match m.zc.get? (usizeOfF64 zoom), m.bc.get? (usizeOfF64 zoom),
      m.cc.get? (usizeOfF64 zoom), m.ac.get? (usizeOfF64 zoom) with
    | some d, some bcz, some ccz, some acz =>
      let f := fClamp (Real.sin (toRadians p.lat)) (-0.9999) 0.9999
      let x := fRound (d + p.lon * bcz)
      let y := fRound (d + 0.5 * Real.log ((1 + f) / (1 - f)) * (-ccz))
      let x2 := if acz * m.expansion < x then acz * m.expansion else x
      let y2 := if acz < y then acz else y
      some ⟨x2, y2⟩
    | _, _, _, _ => none

/-- `SphericalMercator::ll`: screen pixel to lon/lat at a zoom.
`none` models the out-of-bounds table-index panic. -/
def ll (m : SphericalMercator) (p : XYPoint) (zoom : ℝ) : Option LonLatPoint :=
  if is_float zoom then
    let size : ℝ := (m.size : ℝ) * (2 : ℝ) ^ zoom
    let bc := size / 360
    let cc := size / (2 * Real.pi)
    let zc := size / 2
    let g := (p.y - zc) / (-cc)
    let lon := (p.x - zc) / bc
    let lat := toDegrees (2 * Real.arctan (Real.exp g) - 0.5 * Real.pi)
    some ⟨lon, lat⟩
  else
    match m.zc.get? (usizeOfF64 zoom), m.cc.get? (usizeOfF64 zoom),
      m.bc.get? (usizeOfF64 zoom) with
    | some zcz, some ccz, some bcz =>
      let g := (p.y - zcz) / (-ccz)
      let lon := (p.x - zcz) / bcz
      let lat := toDegrees (2 * Real.arctan (Real.exp g) - 0.5 * Real.pi)
      some ⟨lon, lat⟩
    | _, _, _ => none

/-- `SphericalMercator::forward`: lon/lat (WGS84) to Mercator metres,
clamped to `±MAXEXTENT` on both axes. -/
def forward (p : LonLatPoint) : XYPoint :=
  let x := toRadians (A * p.lon)
  let y := A * Real.log (Real.tan (Real.pi * 0.25 + toRadians (0.5 * p.lat)))
  let x2 := if MAXEXTENT < x then MAXEXTENT else x
  let x3 := if x2 < -MAXEXTENT then -MAXEXTENT else x2
  let y2 := if MAXEXTENT < y then MAXEXTENT else y
  let y3 := if y2 < -MAXEXTENT then -MAXEXTENT else y2
  ⟨x3, y3⟩

/-- `SphericalMercator::inverse`: Mercator metres to lon/lat (WGS84). -/
def inverse (q : XYPoint) : LonLatPoint :=
  ⟨toDegrees q.x / A,
   toDegrees (Real.pi * 0.5 - 2 * Real.arctan (Real.exp (-q.y / A)))⟩

/-- `SphericalMercator::convert`: reproject a bbox corner-wise (the `dst`
parameter is named `to` in the source). -/
def convert (bb : BBox) (dst : String) : BBox :=
  if dst = "900913" then
    let l := forward ⟨bb.w, bb.s⟩
    let u := forward ⟨bb.e, bb.n⟩
    ⟨l.x, l.y, u.x, u.y⟩
  else
    let l := inverse ⟨bb.w, bb.s⟩
    let u := inverse ⟨bb.e, bb.n⟩
    ⟨l.lon, l.lat, u.lon, u.lat⟩

/-- `SphericalMercator::bbox`: tile x/y/zoom to bounding box. -/
def bbox (m : SphericalMercator) (x y zoom : ℕ) (tms_style : Bool)
    (srs : String) : Option BBox :=
  let y2 := if tms_style then u32sub (u32sub (u32pow2 zoom) 1) y else y
  let llp : XYPoint := ⟨(x : ℝ) * (m.size : ℝ), ((y2 : ℝ) + 1) * (m.size : ℝ)⟩
  let urp : XYPoint := ⟨((x : ℝ) + 1) * (m.size : ℝ), (y2 : ℝ) * (m.size : ℝ)⟩
  match ll m llp (zoom : ℝ), ll m urp (zoom : ℝ) with
  | some a, some b =>
    let bb : BBox := ⟨a.lon, a.lat, b.lon, b.lat⟩
    some (if srs = "900913" then convert bb "900913" else bb)
  | _, _ => none

/-- `SphericalMercator::xyz`: bounding box to tile index bounds. -/
def xyz (m : SphericalMercator) (bb : BBox) (zoom : ℕ) (tms_style : Bool)
    (srs : String) : Option XYZBounds :=
  let bb2 := if srs = "900913" then convert bb "WGS84" else bb
  match px m ⟨bb2.w, bb2.s⟩ (zoom : ℝ), px m ⟨bb2.e, bb2.n⟩ (zoom : ℝ) with
  | some pll, some pur =>
    let size := (m.size : ℝ)
    let x0 := u32OfF64 (pll.x / size)
    let x1 := u32OfF64 ((pur.x - 1) / size)
    let y0 := u32OfF64 (pur.y / size)
    let y1 := u32OfF64 ((pll.y - 1) / size)
    let bounds : XYZBounds := ⟨min x0 x1, min y0 y1, max x0 x1, max y0 y1⟩
    some (if tms_style then
            ⟨bounds.min_x, u32sub (u32sub (u32pow2 zoom) 1) bounds.max_y,
             bounds.max_x, u32sub (u32sub (u32pow2 zoom) 1) bounds.min_y⟩
          else bounds)
  | _, _ => none

/-- Pre-clamp x pixel value of `px` (the value the source computes before
the antimeridian clamp). -/
def pxRawX (m : SphericalMercator) (p : LonLatPoint) (zoom : ℝ) : Option ℝ :=
  if is_float zoom then
    let size : ℝ := (m.size : ℝ) * (2 : ℝ) ^ zoom
    some (size / 2 + p.lon * (size / 360))
  else
    match m.zc.get? (usizeOfF64 zoom), m.bc.get? (usizeOfF64 zoom) with
    | some d, some bcz => some (fRound (d + p.lon * bcz))
    | _, _ => none

/-- Pre-clamp y pixel value of `px` (the value the source computes before
the upper clamp at `ac`). -/
def pxRawY (m : SphericalMercator) (p : LonLatPoint) (zoom : ℝ) : Option ℝ :=
  if is_float zoom then
    let size : ℝ := (m.size : ℝ) * (2 : ℝ) ^ zoom
    let f := fClamp (Real.sin (toRadians p.lat)) (-0.9999) 0.9999
    some (size / 2 + 0.5 * Real.log ((1 + f) / (1 - f)) * (-(size / (2 * Real.pi))))
  else
    match m.zc.get? (usizeOfF64 zoom), m.cc.get? (usizeOfF64 zoom) with
    | some d, some ccz =>
      let f := fClamp (Real.sin (toRadians p.lat)) (-0.9999) 0.9999
      some (fRound (d + 0.5 * Real.log ((1 + f) / (1 - f)) * (-ccz)))
    | _, _ => none

/-- The clamp bound `ac` used by `px` at a given zoom (table entry for
whole-number zoom, on-the-fly size for fractional zoom). -/
def pxAc (m : SphericalMercator) (zoom : ℝ) : Option ℝ :=
  if is_float zoom then some ((m.size : ℝ) * (2 : ℝ) ^ zoom)
  else m.ac.get? (usizeOfF64 zoom)

/-- Modelled from the spec (§4.2, fractional-zoom path): scale constants
computed on the fly from `size = tile_size * 2 ^ zoom`, latitude sine
clamped to `[-0.9999, 0.9999]`, Mercator logarithm, upper clamps at
`ac * expansion` (x) and `ac` (y), and NO rounding of the results. -/
def pxSpecFractional (tile_size : ℕ) (antimeridian : Bool) (p : LonLatPoint)
    (zoom : ℝ) : XYPoint :=
  let expansion : ℝ := if antimeridian then 2 else 1
  let size : ℝ := (tile_size : ℝ) * (2 : ℝ) ^ zoom
  let f := fClamp (Real.sin (toRadians p.lat)) (-0.9999) 0.9999
  let x := size / 2 + p.lon * (size / 360)
  let y := size / 2 + 0.5 * Real.log ((1 + f) / (1 - f)) * (-(size / (2 * Real.pi)))
  ⟨min (size * expansion) x, min size y⟩

/-- Modelled from the spec (§4.2, integer-zoom path): precomputed table
entries indexed by the integer zoom (`bc = size/360`, `cc = size/(2π)`,
`zc = size/2`, `ac = size` with `size = tile_size * 2 ^ z`), and the final
x and y rounded to the nearest integer pixel, with the same upper clamps. -/
def pxSpecInteger (tile_size : ℕ) (antimeridian : Bool) (p : LonLatPoint)
    (z : ℕ) : XYPoint :=
  let expansion : ℝ := if antimeridian then 2 else 1
  let size : ℝ := (tile_size : ℝ) * 2 ^ z
  let f := fClamp (Real.sin (toRadians p.lat)) (-0.9999) 0.9999
  let x := fRound (size / 2 + p.lon * (size / 360))
  let y := fRound (size / 2 + 0.5 * Real.log ((1 + f) / (1 - f)) * (-(size / (2 * Real.pi))))
  ⟨min (size * expansion) x, min size y⟩

/-- The exact latitude of the Web-Mercator square world limit,
`atan (sinh π)` in degrees (≈ 85.0511287798066). -/
def mercatorLatLimit : ℝ := toDegrees (Real.arctan (Real.sinh Real.pi))

/-! ### Table lookup lemmas -/

lemma buildTables_bc_get? (n : ℕ) (s : ℝ) (i : ℕ) :
    (buildTables n s).1.get? i =
      if i < n then some (s * 2 ^ i / 360) else none := by
  induction n generalizing s i with
  | zero => simp [buildTables]
  | succ n ih =>
    cases i with
    | zero => simp [buildTables]
    | succ i =>
      simp only [buildTables, List.get?_cons_succ, ih, Nat.add_lt_add_iff_right]
      split
      · congr 1; rw [pow_succ]; ring
      · rfl

lemma buildTables_cc_get? (n : ℕ) (s : ℝ) (i : ℕ) :
    (buildTables n s).2.1.get? i =
      if i < n then some (s * 2 ^ i / (2 * Real.pi)) else none := by
  induction n generalizing s i with
  | zero => simp [buildTables]
  | succ n ih =>
    cases i with
    | zero => simp [buildTables]
    | succ i =>
      simp only [buildTables, List.get?_cons_succ, ih, Nat.add_lt_add_iff_right]
      split
      · congr 1; rw [pow_succ]; ring
      · rfl

lemma buildTables_zc_get? (n : ℕ) (s : ℝ) (i : ℕ) :
    (buildTables n s).2.2.1.get? i =
      if i < n then some (s * 2 ^ i / 2) else none := by
  induction n generalizing s i with
  | zero => simp [buildTables]
  | succ n ih =>
    cases i with
    | zero => simp [buildTables]
    | succ i =>
      simp only [buildTables, List.get?_cons_succ, ih, Nat.add_lt_add_iff_right]
      split
      · congr 1; rw [pow_succ]; ring
      · rfl

lemma buildTables_ac_get? (n : ℕ) (s : ℝ) (i : ℕ) :
    (buildTables n s).2.2.2.get? i =
      if i < n then some (s * 2 ^ i) else none := by
  induction n generalizing s i with
  | zero => simp [buildTables]
  | succ n ih =>
    cases i with
    | zero => simp [buildTables]
    | succ i =>
      simp only [buildTables, List.get?_cons_succ, ih, Nat.add_lt_add_iff_right]
      split
      · congr 1; rw [pow_succ]; ring
      · rfl

lemma new_size (size : ℕ) (anti : Bool) :
    (new_with_size_and_antimeridian size anti).size = size := rfl

lemma new_expansion (size : ℕ) (anti : Bool) :
    (new_with_size_and_antimeridian size anti).expansion =
      if anti then 2 else 1 := rfl

lemma new_bc_get? (size : ℕ) (anti : Bool) (i : ℕ) :
    (new_with_size_and_antimeridian size anti).bc.get? i =
      if i < 30 then some ((size : ℝ) * 2 ^ i / 360) else none :=
  buildTables_bc_get? 30 (size : ℝ) i

lemma new_cc_get? (size : ℕ) (anti : Bool) (i : ℕ) :
    (new_with_size_and_antimeridian size anti).cc.get? i =
      if i < 30 then some ((size : ℝ) * 2 ^ i / (2 * Real.pi)) else none :=
  buildTables_cc_get? 30 (size : ℝ) i

lemma new_zc_get? (size : ℕ) (anti : Bool) (i : ℕ) :
    (new_with_size_and_antimeridian size anti).zc.get? i =
      if i < 30 then some ((size : ℝ) * 2 ^ i / 2) else none :=
  buildTables_zc_get? 30 (size : ℝ) i

lemma new_ac_get? (size : ℕ) (anti : Bool) (i : ℕ) :
    (new_with_size_and_antimeridian size anti).ac.get? i =
      if i < 30 then some ((size : ℝ) * 2 ^ i) else none :=
  buildTables_ac_get? 30 (size : ℝ) i

/-! ### Cast, fract, round and clamp lemmas -/

lemma fTrunc_intCast (k : ℤ) : fTrunc (k : ℝ) = k := by
  unfold fTrunc; split <;> simp

lemma fFract_intCast (k : ℤ) : fFract (k : ℝ) = 0 := by
  simp [fFract, fTrunc_intCast]

lemma not_is_float_intCast (k : ℤ) : ¬ is_float (k : ℝ) := by
  simp [is_float, fFract_intCast]

lemma not_is_float_natCast (k : ℕ) : ¬ is_float (k : ℝ) := by
  have h := not_is_float_intCast (k : ℤ)
  simpa using h

lemma fFract_eq_zero_of_int {z : ℝ} (k : ℤ) (hk : z = (k : ℝ)) : fFract z = 0 := by
  rw [hk]; exact fFract_intCast k

lemma is_float_half : is_float (1 / 2 : ℝ) := by
  have h : fTrunc (1 / 2 : ℝ) = 0 := by
    unfold fTrunc
    rw [if_pos (by norm_num)]
    norm_num [Int.floor_eq_iff]
  unfold is_float fFract
  rw [h]
  norm_num

lemma usizeOfF64_natCast (k : ℕ) (hk : k ≤ 2 ^ 64 - 1) :
    usizeOfF64 (k : ℝ) = k := by
  simp only [usizeOfF64, Int.floor_natCast, Int.toNat_natCast]
  exact min_eq_right hk

lemma usizeOfF64_of_neg {z : ℝ} (hz : z < 0) : usizeOfF64 z = 0 := by
  have h1 : ⌊z⌋ ≤ 0 := by
    have := Int.floor_le z
    have : (⌊z⌋ : ℝ) < 0 := lt_of_le_of_lt this hz
    exact_mod_cast this.le
  simp [usizeOfF64, Int.toNat_of_nonpos h1]

lemma u32OfF64_nonpos {q : ℝ} (h : q ≤ 0) : u32OfF64 q = 0 := by
  have h1 : ⌊q⌋ ≤ 0 := by
    have h2 : (⌊q⌋ : ℝ) ≤ 0 := le_trans (Int.floor_le q) h
    exact_mod_cast h2
  simp [u32OfF64, Int.toNat_of_nonpos h1]

lemma u32OfF64_eq {q : ℝ} (k : ℕ) (h1 : (k : ℝ) ≤ q) (h2 : q < (k : ℝ) + 1)
    (hk : k ≤ 2 ^ 32 - 1) : u32OfF64 q = k := by
  have hfloor : ⌊q⌋ = (k : ℤ) := by
    rw [Int.floor_eq_iff]
    constructor
    · exact_mod_cast h1
    · push_cast
      exact h2
  simp only [u32OfF64, hfloor, Int.toNat_natCast]
  exact min_eq_right hk

lemma u32sub_eq_sub {a b : ℕ} (hb : b ≤ a) (ha : a < 2 ^ 32) :
    u32sub a b = a - b := by
  unfold u32sub
  omega

lemma fClamp_eq_self {x lo hi : ℝ} (h1 : lo ≤ x) (h2 : x ≤ hi) :
    fClamp x lo hi = x := by
  rw [fClamp, min_eq_right h2, max_eq_right h1]

lemma fClamp_of_le_lo {x lo hi : ℝ} (h1 : x ≤ lo) (h2 : x ≤ hi) :
    fClamp x lo hi = lo := by
  rw [fClamp, min_eq_right h2, max_eq_left h1]

lemma fClamp_of_hi_le {x lo hi : ℝ} (h1 : hi ≤ x) (h2 : lo ≤ hi) :
    fClamp x lo hi = hi := by
  rw [fClamp, min_eq_left h1, max_eq_right h2]

lemma fRound_natCast_of_bounds {x : ℝ} (k : ℕ) (h0 : 0 ≤ x)
    (h1 : (k : ℝ) - 1 / 2 ≤ x) (h2 : x < (k : ℝ) + 1 / 2) :
    fRound x = (k : ℝ) := by
  rw [fRound, if_pos h0]
  have hfloor : ⌊x + 1 / 2⌋ = (k : ℤ) := by
    rw [Int.floor_eq_iff]
    constructor
    · push_cast; linarith
    · push_cast; linarith
  rw [hfloor]
  norm_num

lemma le_fRound_of_le {x : ℝ} (k : ℤ) (h0 : 0 ≤ x) (h : (k : ℝ) - 1 / 2 ≤ x) :
    (k : ℝ) ≤ fRound x := by
  rw [fRound, if_pos h0]
  have : (k : ℤ) ≤ ⌊x + 1 / 2⌋ := Int.le_floor.mpr (by linarith)
  exact_mod_cast this

lemma fRound_le_of_lt {x : ℝ} (k : ℤ) (h0 : 0 ≤ x) (h : x < (k : ℝ) + 1 / 2) :
    fRound x ≤ (k : ℝ) := by
  rw [fRound, if_pos h0]
  have h2 : ⌊x + 1 / 2⌋ < k + 1 := Int.floor_lt.mpr (by push_cast; linarith)
  have h3 : ⌊x + 1 / 2⌋ ≤ k := by omega
  exact_mod_cast h3

lemma fRound_nonpos {x : ℝ} (h : x ≤ 0) : fRound x ≤ 0 := by
  rw [fRound]
  split
  · have hx : x = 0 := le_antisymm h (by assumption)
    subst hx
    norm_num [Int.floor_eq_iff]
  · have : ⌈x - 1 / 2⌉ ≤ (0 : ℤ) := Int.ceil_le.mpr (by push_cast; linarith)
    exact_mod_cast this

lemma ite_lt_min {b v : ℝ} : (if b < v then b else v) = min b v := by
  by_cases h : b < v
  · rw [if_pos h, min_eq_left h.le]
  · rw [if_neg h, min_eq_right (le_of_not_lt h)]

lemma not_is_float_zero : ¬ is_float (0 : ℝ) := by
  have h := not_is_float_natCast 0
  simpa using h

lemma usizeOfF64_zero : usizeOfF64 (0 : ℝ) = 0 := by
  have h := usizeOfF64_natCast 0 (by norm_num)
  simpa using h

lemma fRound_natCast (k : ℕ) : fRound (k : ℝ) = (k : ℝ) :=
  fRound_natCast_of_bounds k (by positivity) (by linarith) (by linarith)

lemma toRadians_zero : toRadians 0 = 0 := by
  unfold toRadians
  ring


/-! ### Evaluation lemmas for `px` and `ll` on constructed engines -/

/-- On a whole-number zoom below 30, `px` computes exactly the spec's
integer-zoom description. -/
lemma px_int_eq_spec (size : ℕ) (anti : Bool) (p : LonLatPoint) (z : ℕ)
    (hz : z < 30) :
    px (new_with_size_and_antimeridian size anti) p (z : ℝ) =
      some (pxSpecInteger size anti p z) := by
  have h1 : ¬ is_float ((z : ℕ) : ℝ) := not_is_float_natCast z
  have h2 : usizeOfF64 ((z : ℕ) : ℝ) = z :=
    usizeOfF64_natCast z (le_trans hz.le (by norm_num))
  rw [px, if_neg h1]
  simp only [h2, new_zc_get?, new_bc_get?, new_cc_get?, new_ac_get?, hz,
    if_true, new_expansion, pxSpecInteger, ite_lt_min]

/-- On a fractional zoom, `px` computes exactly the spec's
fractional-zoom description (on-the-fly constants, no rounding). -/
lemma px_float_eq_spec (size : ℕ) (anti : Bool) (p : LonLatPoint) (zoom : ℝ)
    (h : is_float zoom) :
    px (new_with_size_and_antimeridian size anti) p zoom =
      some (pxSpecFractional size anti p zoom) := by
  rw [px, if_pos h]
  simp only [pxSpecFractional, new_expansion, new_size, ite_lt_min]

/-- `ll` on a whole-number zoom below 30 returns the integer-branch value
(the table entries written in closed form). -/
lemma ll_int_eval (size : ℕ) (anti : Bool) (q : XYPoint) (z : ℕ)
    (hz : z < 30) :
    ll (new_with_size_and_antimeridian size anti) q (z : ℝ) =
      some ⟨(q.x - (size : ℝ) * 2 ^ z / 2) / ((size : ℝ) * 2 ^ z / 360),
        toDegrees (2 * Real.arctan (Real.exp ((q.y - (size : ℝ) * 2 ^ z / 2) /
          (-((size : ℝ) * 2 ^ z / (2 * Real.pi))))) - 0.5 * Real.pi)⟩ := by
  rw [ll, if_neg (not_is_float_natCast z),
    usizeOfF64_natCast z (le_trans hz.le (by norm_num))]
  simp only [new_zc_get?, new_cc_get?, new_bc_get?, hz, if_true]

/-- `ll` on a fractional zoom returns the on-the-fly value. -/
lemma ll_float_eval (size : ℕ) (anti : Bool) (q : XYPoint) (zoom : ℝ)
    (h : is_float zoom) :
    ll (new_with_size_and_antimeridian size anti) q zoom =
      some ⟨(q.x - (size : ℝ) * (2 : ℝ) ^ zoom / 2) /
          ((size : ℝ) * (2 : ℝ) ^ zoom / 360),
        toDegrees (2 * Real.arctan (Real.exp
          ((q.y - (size : ℝ) * (2 : ℝ) ^ zoom / 2) /
            (-((size : ℝ) * (2 : ℝ) ^ zoom / (2 * Real.pi))))) -
          0.5 * Real.pi)⟩ := by
  rw [ll, if_pos h]
  simp only [new_size]

/-! ### Numeric bounds -/

lemma exp_seven_lt : Real.exp 7 < 1097 := by
  have h : Real.exp 7 = Real.exp 1 ^ 7 := by
    rw [← Real.exp_nat_mul]
    norm_num
  rw [h]
  have h1 : Real.exp 1 < 2.7182818286 := Real.exp_one_lt_d9
  have h2 : (0 : ℝ) < Real.exp 1 := Real.exp_pos 1
  calc Real.exp 1 ^ 7 < 2.7182818286 ^ 7 := pow_lt_pow_left₀ h1 h2.le (by norm_num)
    _ < 1097 := by norm_num

lemma exp_two_pi_lt : Real.exp (2 * Real.pi) < 19999 := by
  have h1 : (2 : ℝ) * Real.pi < 7 := by
    have := Real.pi_lt_d6
    nlinarith
  calc Real.exp (2 * Real.pi) < Real.exp 7 := Real.exp_lt_exp.mpr h1
    _ < 1097 := exp_seven_lt
    _ < 19999 := by norm_num

lemma exp_two_pi_gt : (525 : ℝ) < Real.exp (2 * Real.pi) := by
  have hx : (6.283184 : ℝ) ≤ 2 * Real.pi := by
    have := Real.pi_gt_d6
    nlinarith
  have hsum := Real.sum_le_exp_of_nonneg (show (0 : ℝ) ≤ 6.283184 by norm_num) 16
  have hval : (525 : ℝ) <
      ∑ i ∈ Finset.range 16, (6.283184 : ℝ) ^ i / (Nat.factorial i) := by
    simp only [Finset.sum_range_succ, Finset.sum_range_zero]
    norm_num [Nat.factorial]
  calc (525 : ℝ) < ∑ i ∈ Finset.range 16, (6.283184 : ℝ) ^ i / (Nat.factorial i) := hval
    _ ≤ Real.exp 6.283184 := hsum
    _ ≤ Real.exp (2 * Real.pi) := Real.exp_le_exp.mpr hx

lemma seven_le_log_19999 : (7 : ℝ) ≤ Real.log 19999 :=
  (Real.le_log_iff_exp_le (by norm_num)).mpr (le_trans exp_seven_lt.le (by norm_num))

lemma log_19999_le_ten : Real.log 19999 ≤ 10 := by
  apply (Real.log_le_iff_le_exp (by norm_num)).mpr
  have h : Real.exp 10 = Real.exp 1 ^ 10 := by
    rw [← Real.exp_nat_mul]
    norm_num
  have h1 : (2.7182818283 : ℝ) ^ 10 ≤ Real.exp 1 ^ 10 :=
    pow_le_pow_left₀ (by norm_num) Real.exp_one_gt_d9.le 10
  rw [h]
  calc (19999 : ℝ) ≤ 2.7182818283 ^ 10 := by norm_num
    _ ≤ Real.exp 1 ^ 10 := h1

/-! ### Analytic identities -/

/-- `(1 + tanh x) / (1 - tanh x) = exp (2x)`. -/
lemma ratio_of_sinh_div_cosh (x : ℝ) :
    (1 + Real.sinh x / Real.cosh x) / (1 - Real.sinh x / Real.cosh x) =
      Real.exp (2 * x) := by
  have hc : 0 < Real.cosh x := Real.cosh_pos x
  have h2 : 1 - Real.sinh x / Real.cosh x = Real.exp (-x) / Real.cosh x := by
    rw [← Real.cosh_sub_sinh x]
    field_simp
  have h1c : 1 - Real.sinh x / Real.cosh x ≠ 0 := by
    rw [h2]
    positivity
  rw [div_eq_iff h1c]
  field_simp
  rw [← Real.exp_add]
  congr 1
  ring

lemma sinh_div_cosh_lt_one (x : ℝ) : Real.sinh x / Real.cosh x < 1 := by
  have hc : 0 < Real.cosh x := Real.cosh_pos x
  rw [div_lt_one hc]
  nlinarith [Real.cosh_sub_sinh x, Real.exp_pos (-x)]

lemma neg_one_lt_sinh_div_cosh (x : ℝ) : -1 < Real.sinh x / Real.cosh x := by
  have hc : 0 < Real.cosh x := Real.cosh_pos x
  rw [lt_div_iff₀ hc]
  nlinarith [Real.cosh_add_sinh x, Real.exp_pos x]

/-- `tanh π ≤ 0.9999`, a consequence of `exp (2π) < 19999`. -/
lemma sinh_div_cosh_pi_le : Real.sinh Real.pi / Real.cosh Real.pi ≤ 0.9999 := by
  have hc : 0 < Real.cosh Real.pi := Real.cosh_pos Real.pi
  rw [div_le_iff₀ hc]
  rw [Real.sinh_eq, Real.cosh_eq]
  have hp : 0 < Real.exp Real.pi := Real.exp_pos _
  have hn : 0 < Real.exp (-Real.pi) := Real.exp_pos _
  have hprod : Real.exp Real.pi * Real.exp (-Real.pi) = 1 := by
    rw [← Real.exp_add]
    simp
  have hsq : Real.exp Real.pi * Real.exp Real.pi = Real.exp (2 * Real.pi) := by
    rw [← Real.exp_add]
    congr 1
    ring
  nlinarith [exp_two_pi_lt]

/-- Monotonicity of `a ↦ (1+a)/(1-a)` on `(-1, 1)`. -/
lemma one_add_div_one_sub_le_of_le {a b : ℝ} (_ha : -1 < a) (hab : a ≤ b)
    (hb : b < 1) : (1 + a) / (1 - a) ≤ (1 + b) / (1 - b) := by
  have h1 : 0 < 1 - a := by linarith
  have h2 : 0 < 1 - b := by linarith
  rw [div_le_div_iff₀ h1 h2]
  nlinarith

/-- `sin (arctan (sinh x)) = tanh x`. -/
lemma sin_arctan_sinh (x : ℝ) :
    Real.sin (Real.arctan (Real.sinh x)) = Real.sinh x / Real.cosh x := by
  rw [Real.sin_arctan]
  congr 1
  rw [show (1 : ℝ) + Real.sinh x ^ 2 = Real.cosh x ^ 2 by rw [Real.cosh_sq]; ring]
  exact Real.sqrt_sq (Real.cosh_pos x).le

/-- The key inverse-Mercator identity: for `-1 < f < 1`,
`2 atan (exp (artanh f)) - π/2 = arcsin f`. -/
lemma two_arctan_exp_sub_eq_arcsin {f : ℝ} (h1 : -1 < f) (h2 : f < 1) :
    2 * Real.arctan (Real.exp (0.5 * Real.log ((1 + f) / (1 - f)))) -
      0.5 * Real.pi = Real.arcsin f := by
  have hrpos : 0 < (1 + f) / (1 - f) := div_pos (by linarith) (by linarith)
  set t := Real.exp (0.5 * Real.log ((1 + f) / (1 - f))) with ht_def
  have ht : 0 < t := Real.exp_pos _
  have ht2 : t ^ 2 = (1 + f) / (1 - f) := by
    rw [ht_def, ← Real.exp_nat_mul]
    rw [show ((2 : ℕ) : ℝ) * (0.5 * Real.log ((1 + f) / (1 - f))) =
      Real.log ((1 + f) / (1 - f)) by push_cast; ring]
    exact Real.exp_log hrpos
  have hsin : Real.sin (2 * Real.arctan t - 0.5 * Real.pi) = f := by
    rw [show (0.5 : ℝ) * Real.pi = Real.pi / 2 by ring, Real.sin_sub_pi_div_two,
      Real.cos_two_mul, Real.cos_arctan]
    have h1t : (0 : ℝ) < 1 + t ^ 2 := by positivity
    rw [div_pow, one_pow, Real.sq_sqrt h1t.le, ht2]
    have hne : (1 : ℝ) - f ≠ 0 := by linarith
    have hne2 : (1 : ℝ) + (1 + f) / (1 - f) ≠ 0 := by
      have h3 : (1 : ℝ) + (1 + f) / (1 - f) = 2 / (1 - f) := by field_simp; ring
      rw [h3]
      positivity
    field_simp
    ring
  have hlo : -(Real.pi / 2) ≤ 2 * Real.arctan t - 0.5 * Real.pi := by
    have ha : 0 < Real.arctan t := by
      have h4 := Real.arctan_strictMono (show (0 : ℝ) < t from ht)
      rwa [Real.arctan_zero] at h4
    nlinarith [Real.pi_pos]
  have hhi : 2 * Real.arctan t - 0.5 * Real.pi ≤ Real.pi / 2 := by
    have hb := Real.arctan_lt_pi_div_two t
    nlinarith
  have harc := Real.arcsin_sin hlo hhi
  rw [hsin] at harc
  exact harc.symm

/-- Degrees/radians conversions are mutually inverse. -/
lemma toRadians_toDegrees (x : ℝ) : toRadians (toDegrees x) = x := by
  unfold toRadians toDegrees
  field_simp

lemma toDegrees_toRadians (x : ℝ) : toDegrees (toRadians x) = x := by
  unfold toRadians toDegrees
  field_simp


/-! ### Claim C7: unrecognized srs behaves as WGS84 -/

/-- C7: For every srs string other than "900913", `bbox` and `xyz` behave
exactly as they do when srs is "WGS84": the unrecognized value is treated
as WGS84 (pass-through, no reprojection), for all tile indices, bounding
boxes, zooms and tms-style flags. -/
theorem c7_srs_fallback_wgs84 :
    ∀ (m : SphericalMercator) (srs : String), srs ≠ "900913" →
      (∀ (x y zoom : ℕ) (tms : Bool),
          bbox m x y zoom tms srs = bbox m x y zoom tms "WGS84") ∧
      (∀ (bb : BBox) (zoom : ℕ) (tms : Bool),
          xyz m bb zoom tms srs = xyz m bb zoom tms "WGS84") := by
  intro m srs h
  have h2 : ("WGS84" : String) ≠ "900913" := by decide
  constructor
  · intro x y zoom tms
    simp only [bbox, h, h2, if_false]
  · intro bb zoom tms
    simp only [xyz, h, h2, if_false]

/-- Witness for C7 at the concrete srs "EPSG:4326". -/
theorem c7_witness :
    bbox new 0 0 0 false "EPSG:4326" = bbox new 0 0 0 false "WGS84" :=
  (c7_srs_fallback_wgs84 new "EPSG:4326" (by decide)).1 0 0 0 false

/-! ### Claim C9: negative whole-number zoom saturates to table index 0 -/

/-- C9: For every whole-number zoom `z < 0` and every input point,
`px`/`ll` at `z` return exactly the same result as at zoom 0: the
negative integer zoom is saturated to table index 0 by the `as usize`
cast, not rejected or wrapped. -/
theorem c9_negative_whole_zoom_saturates :
    ∀ (m : SphericalMercator) (p : LonLatPoint) (q : XYPoint) (z : ℝ),
      fFract z = 0 → z < 0 →
      px m p z = px m p 0 ∧ ll m q z = ll m q 0 := by
  intro m p q z hf hz
  have h1 : ¬ is_float z := by simp [is_float, hf]
  have h0 : ¬ is_float (0 : ℝ) := by
    have h := not_is_float_natCast 0
    simpa using h
  have hu : usizeOfF64 z = 0 := usizeOfF64_of_neg hz
  have hu0 : usizeOfF64 (0 : ℝ) = 0 := by
    have h := usizeOfF64_natCast 0 (by norm_num)
    simpa using h
  constructor
  · rw [px, px, if_neg h1, if_neg h0, hu, hu0]
  · rw [ll, ll, if_neg h1, if_neg h0, hu, hu0]

/-- Witness for C9 at zoom -1. -/
theorem c9_witness :
    px new ⟨0, 0⟩ (-1) = px new ⟨0, 0⟩ 0 ∧
      ll new ⟨0, 0⟩ (-1) = ll new ⟨0, 0⟩ 0 :=
  c9_negative_whole_zoom_saturates new ⟨0, 0⟩ ⟨0, 0⟩ (-1)
    (by simpa using fFract_intCast (-1)) (by norm_num)

/-! ### Claim C3: integer/fractional zoom branching in `px` -/

/-- C3: `px` branches on whether zoom is a whole number: with a nonzero
fractional part the scale constants are computed on the fly from
`size = tile_size * 2 ^ zoom` and the result is not rounded; on a whole
number the precomputed table entries indexed by the (`usize`-cast) zoom
are used and the final x and y are rounded to the nearest integer pixel
(the two behaviours are stated by the spec-modelled functions
`pxSpecFractional` and `pxSpecInteger`). -/
theorem c3_px_dual_path :
    ∀ (size : ℕ) (anti : Bool) (p : LonLatPoint) (zoom : ℝ),
      (is_float zoom →
        px (new_with_size_and_antimeridian size anti) p zoom =
          some (pxSpecFractional size anti p zoom)) ∧
      (¬ is_float zoom → usizeOfF64 zoom < 30 →
        px (new_with_size_and_antimeridian size anti) p zoom =
          some (pxSpecInteger size anti p (usizeOfF64 zoom))) := by
  intro size anti p zoom
  constructor
  · intro h
    exact px_float_eq_spec size anti p zoom h
  · intro h hz
    rw [px, if_neg h]
    simp only [new_zc_get?, new_bc_get?, new_cc_get?, new_ac_get?, hz,
      if_true, new_expansion, pxSpecInteger, ite_lt_min]

/-- Witness for C3 at fractional zoom 1/2 and whole zoom 4. -/
theorem c3_witness :
    px (new_with_size_and_antimeridian 256 false) ⟨0, 0⟩ (1 / 2) =
      some (pxSpecFractional 256 false ⟨0, 0⟩ (1 / 2)) ∧
    px (new_with_size_and_antimeridian 256 false) ⟨0, 0⟩ 4 =
      some (pxSpecInteger 256 false ⟨0, 0⟩ (usizeOfF64 4)) := by
  constructor
  · exact (c3_px_dual_path 256 false ⟨0, 0⟩ (1 / 2)).1 is_float_half
  · refine (c3_px_dual_path 256 false ⟨0, 0⟩ 4).2 ?_ ?_
    · have h := not_is_float_natCast 4
      simpa using h
    · have h : usizeOfF64 ((4 : ℕ) : ℝ) = 4 := usizeOfF64_natCast 4 (by norm_num)
      have h4 : ((4 : ℕ) : ℝ) = (4 : ℝ) := by norm_num
      rw [h4] at h
      rw [h]
      norm_num

/-! ### Claim C1: ordering invariant of `xyz` -/

/-- The pre-flip tile bounds computed by `xyz` from the two corner pixels
(lines building `bounds` in the source). -/
def xyzRaw (m : SphericalMercator) (pll pur : XYPoint) : XYZBounds :=
  ⟨min (u32OfF64 (pll.x / (m.size : ℝ))) (u32OfF64 ((pur.x - 1) / (m.size : ℝ))),
   min (u32OfF64 (pur.y / (m.size : ℝ))) (u32OfF64 ((pll.y - 1) / (m.size : ℝ))),
   max (u32OfF64 (pll.x / (m.size : ℝ))) (u32OfF64 ((pur.x - 1) / (m.size : ℝ))),
   max (u32OfF64 (pur.y / (m.size : ℝ))) (u32OfF64 ((pll.y - 1) / (m.size : ℝ)))⟩

/-- The TMS y-flip applied by `xyz` (wrapping u32 arithmetic). -/
def xyzFlip (zoom : ℕ) (b : XYZBounds) : XYZBounds :=
  ⟨b.min_x, u32sub (u32sub (u32pow2 zoom) 1) b.max_y,
   b.max_x, u32sub (u32sub (u32pow2 zoom) 1) b.min_y⟩

/-- `xyz` as a bind over the two corner `px` computations. -/
lemma xyz_eq_bind (m : SphericalMercator) (bb : BBox) (zoom : ℕ)
    (tms : Bool) (srs : String) :
    xyz m bb zoom tms srs =
      (px m ⟨(if srs = "900913" then convert bb "WGS84" else bb).w,
             (if srs = "900913" then convert bb "WGS84" else bb).s⟩
        (zoom : ℝ)).bind
      (fun pll =>
        (px m ⟨(if srs = "900913" then convert bb "WGS84" else bb).e,
               (if srs = "900913" then convert bb "WGS84" else bb).n⟩
          (zoom : ℝ)).map
        (fun pur => if tms then xyzFlip zoom (xyzRaw m pll pur)
                    else xyzRaw m pll pur)) := by
  simp only [xyz]
  set c := if srs = "900913" then convert bb "WGS84" else bb with hc
  rcases h1 : px m ⟨c.w, c.s⟩ ((zoom : ℕ) : ℝ) with _ | pll <;>
    rcases h2 : px m ⟨c.e, c.n⟩ ((zoom : ℕ) : ℝ) with _ | pur <;>
    simp [xyzRaw, xyzFlip]

/-- `px` on a constructed engine returns only when the whole-number zoom
is below the table size. -/
lemma px_some_imp_lt30 (size : ℕ) (anti : Bool) (p : LonLatPoint) (zoom : ℕ)
    (v : XYPoint)
    (h : px (new_with_size_and_antimeridian size anti) p ((zoom : ℕ) : ℝ) =
      some v) : zoom < 30 := by
  by_contra hz
  push_neg at hz
  rw [px, if_neg (not_is_float_natCast zoom)] at h
  have husz : ¬ (usizeOfF64 ((zoom : ℕ) : ℝ) < 30) := by
    have he : usizeOfF64 ((zoom : ℕ) : ℝ) = min (2 ^ 64 - 1) zoom := by
      simp [usizeOfF64, Int.floor_natCast, Int.toNat_natCast]
    rw [he, show (2 : ℕ) ^ 64 - 1 = 18446744073709551615 by norm_num]
    omega
  rw [new_zc_get?, if_neg husz] at h
  simp at h

/-- C1 (amended): the `XYZBounds` returned by `xyz` satisfy
`min_x ≤ max_x` and `min_y ≤ max_y` for every bbox, zoom and srs when
`tms_style` is false; when `tms_style` is true the same holds provided the
pre-flip `max_y` does not exceed `2 ^ zoom - 1` (otherwise the u32 TMS
subtraction wraps). -/
theorem c1_amended_xyz_ordering :
    ∀ (size : ℕ) (anti : Bool) (bb : BBox) (zoom : ℕ) (srs : String),
      (∀ b, xyz (new_with_size_and_antimeridian size anti) bb zoom false srs =
          some b → b.min_x ≤ b.max_x ∧ b.min_y ≤ b.max_y) ∧
      (∀ b b',
        xyz (new_with_size_and_antimeridian size anti) bb zoom true srs =
          some b →
        xyz (new_with_size_and_antimeridian size anti) bb zoom false srs =
          some b' →
        b'.max_y ≤ 2 ^ zoom - 1 →
        b.min_x ≤ b.max_x ∧ b.min_y ≤ b.max_y) := by
  intro size anti bb zoom srs
  constructor
  · intro b h
    rw [xyz_eq_bind] at h
    simp only [Option.bind_eq_some, Option.map_eq_some', Bool.false_eq_true,
      if_false] at h
    obtain ⟨pll, _, pur, _, hb⟩ := h
    rw [← hb]
    exact ⟨min_le_max, min_le_max⟩
  · intro b b' ht hf hmax
    have hz30 : zoom < 30 := by
      rw [xyz_eq_bind] at ht
      simp only [Option.bind_eq_some, Option.map_eq_some'] at ht
      obtain ⟨pll, hpll, _, _, _⟩ := ht
      exact px_some_imp_lt30 size anti _ zoom pll hpll
    rw [xyz_eq_bind] at ht hf
    simp only [Option.bind_eq_some, Option.map_eq_some', Bool.false_eq_true,
      if_false, if_true] at ht hf
    obtain ⟨pll, hpll, pur, hpur, hb⟩ := ht
    obtain ⟨pll2, hpll2, pur2, hpur2, hb2⟩ := hf
    rw [hpll] at hpll2
    rw [hpur] at hpur2
    simp only [Option.some.injEq] at hpll2 hpur2
    subst hpll2
    subst hpur2
    rw [← hb2] at hmax
    rw [← hb]
    have hpow : u32pow2 zoom = 2 ^ zoom := by
      rw [u32pow2]
      exact Nat.mod_eq_of_lt (Nat.pow_lt_pow_right (by norm_num) (by omega))
    have hq : u32sub (u32pow2 zoom) 1 = 2 ^ zoom - 1 := by
      rw [hpow]
      exact u32sub_eq_sub Nat.one_le_two_pow
        (Nat.pow_lt_pow_right (by norm_num) (by omega))
    have hlt : 2 ^ zoom - 1 < 2 ^ 32 := by
      have h32 := Nat.pow_lt_pow_right (show 1 < 2 by norm_num)
        (show zoom < 32 by omega)
      omega
    have hmax2 : (xyzRaw (new_with_size_and_antimeridian size anti) pll
        pur).max_y ≤ 2 ^ zoom - 1 := hmax
    have hmin2 : (xyzRaw (new_with_size_and_antimeridian size anti) pll
        pur).min_y ≤ 2 ^ zoom - 1 := le_trans min_le_max hmax2
    constructor
    · exact min_le_max
    · show u32sub (u32sub (u32pow2 zoom) 1) _ ≤ u32sub (u32sub (u32pow2 zoom) 1) _
      rw [hq, u32sub_eq_sub hmax2 hlt, u32sub_eq_sub hmin2 hlt]
      exact Nat.sub_le_sub_left min_le_max _

/-- `pxSpecInteger` at the origin (zoom 0, 256px tiles): centre pixel. -/
lemma pxSpecInteger_origin : pxSpecInteger 256 false ⟨0, 0⟩ 0 = ⟨128, 128⟩ := by
  unfold pxSpecInteger
  have hrad : toRadians ((LonLatPoint.mk (0 : ℝ) 0).lat) = 0 := by
    show toRadians (0 : ℝ) = 0
    exact toRadians_zero
  rw [hrad, Real.sin_zero, fClamp_eq_self (by norm_num) (by norm_num)]
  have hfr : fRound (128 : ℝ) = 128 := by simpa using fRound_natCast 128
  norm_num [Real.log_one, hfr, min_def]

/-- `px` on the default engine at the origin, zoom 0. -/
lemma px_origin_eval : px new ⟨0, 0⟩ ((0 : ℕ) : ℝ) = some ⟨128, 128⟩ := by
  rw [show SM.new = new_with_size_and_antimeridian 256 false from rfl,
    px_int_eq_spec 256 false _ 0 (by norm_num), pxSpecInteger_origin]

/-- Evaluate `xyzRaw` from the four tile-index casts. -/
lemma xyzRaw_eval (m : SphericalMercator) (pll pur : XYPoint) (a b c d : ℕ)
    (h1 : u32OfF64 (pll.x / (m.size : ℝ)) = a)
    (h2 : u32OfF64 ((pur.x - 1) / (m.size : ℝ)) = b)
    (h3 : u32OfF64 (pur.y / (m.size : ℝ)) = c)
    (h4 : u32OfF64 ((pll.y - 1) / (m.size : ℝ)) = d) :
    xyzRaw m pll pur = ⟨min a b, min c d, max a b, max c d⟩ := by
  unfold xyzRaw
  rw [h1, h2, h3, h4]

/-- `xyz` of the degenerate zero-size bbox at the origin. -/
lemma xyz_zero_eval : xyz new ⟨0, 0, 0, 0⟩ 0 false "WGS84" = some ⟨0, 0, 0, 0⟩ := by
  rw [xyz_eq_bind]
  have hsrs : ¬ (("WGS84" : String) = "900913") := by decide
  rw [if_neg hsrs]
  have hp : px new ⟨(BBox.mk 0 0 0 0).w, (BBox.mk 0 0 0 0).s⟩ ((0 : ℕ) : ℝ) =
      some ⟨128, 128⟩ := px_origin_eval
  rw [hp]
  have hraw : xyzRaw new ⟨128, 128⟩ ⟨128, 128⟩ = ⟨0, 0, 0, 0⟩ := by
    have e1 : u32OfF64 ((XYPoint.mk (128 : ℝ) 128).x / ((new).size : ℝ)) = 0 := by
      show u32OfF64 ((128 : ℝ) / ((256 : ℕ) : ℝ)) = 0
      exact u32OfF64_eq 0 (by norm_num) (by norm_num) (by norm_num)
    have e2 : u32OfF64 (((XYPoint.mk (128 : ℝ) 128).x - 1) / ((new).size : ℝ)) = 0 := by
      show u32OfF64 (((128 : ℝ) - 1) / ((256 : ℕ) : ℝ)) = 0
      exact u32OfF64_eq 0 (by norm_num) (by norm_num) (by norm_num)
    have e3 : u32OfF64 ((XYPoint.mk (128 : ℝ) 128).y / ((new).size : ℝ)) = 0 := by
      show u32OfF64 ((128 : ℝ) / ((256 : ℕ) : ℝ)) = 0
      exact u32OfF64_eq 0 (by norm_num) (by norm_num) (by norm_num)
    have e4 : u32OfF64 (((XYPoint.mk (128 : ℝ) 128).y - 1) / ((new).size : ℝ)) = 0 := by
      show u32OfF64 (((128 : ℝ) - 1) / ((256 : ℕ) : ℝ)) = 0
      exact u32OfF64_eq 0 (by norm_num) (by norm_num) (by norm_num)
    rw [xyzRaw_eval new _ _ 0 0 0 0 e1 e2 e3 e4]
    norm_num
  simp [hraw]

/-- `pxSpecInteger` at the south pole: the rounded y pixel exceeds `ac`
and is clamped to exactly 256 at zoom 0. -/
lemma pxSpecInteger_south : pxSpecInteger 256 false ⟨0, -90⟩ 0 = ⟨128, 256⟩ := by
  simp only [pxSpecInteger]
  rw [show toRadians (-90 : ℝ) = -(Real.pi / 2) by unfold toRadians; ring,
    Real.sin_neg, Real.sin_pi_div_two,
    fClamp_of_le_lo (by norm_num) (by norm_num),
    show (((256 : ℕ) : ℝ)) * 2 ^ (0 : ℕ) = 256 by norm_num]
  have hlog : Real.log ((1 + -(0.9999 : ℝ)) / (1 - -(0.9999 : ℝ))) =
      -Real.log 19999 := by
    rw [show (1 + -(0.9999 : ℝ)) / (1 - -(0.9999 : ℝ)) = ((19999 : ℝ))⁻¹ by
      norm_num]
    exact Real.log_inv 19999
  rw [hlog, XYPoint.mk.injEq]
  constructor
  · rw [show (256 : ℝ) / 2 + 0 * ((256 : ℝ) / 360) = ((128 : ℕ) : ℝ) by
      norm_num, fRound_natCast]
    norm_num [min_def]
  · have hY : (256.5 : ℝ) ≤
        256 / 2 + 0.5 * -Real.log 19999 * (-(256 / (2 * Real.pi))) := by
      have hL := seven_le_log_19999
      have hpi := Real.pi_lt_d6
      have hpi0 := Real.pi_pos
      rw [show (0.5 : ℝ) * -Real.log 19999 * (-(256 / (2 * Real.pi))) =
        64 * Real.log 19999 / Real.pi by ring]
      have h1 : (128.5 : ℝ) ≤ 64 * Real.log 19999 / Real.pi := by
        rw [le_div_iff₀ hpi0]
        nlinarith
      linarith
    have h0 : (0 : ℝ) ≤
        256 / 2 + 0.5 * -Real.log 19999 * (-(256 / (2 * Real.pi))) := by
      linarith
    have h257 := le_fRound_of_le 257 h0 (by push_cast; linarith)
    push_cast at h257
    exact min_eq_left (by linarith)

/-- `px` on the default engine at the south pole, zoom 0. -/
lemma px_south_eval : px new ⟨0, -90⟩ ((0 : ℕ) : ℝ) = some ⟨128, 256⟩ := by
  rw [show SM.new = new_with_size_and_antimeridian 256 false from rfl,
    px_int_eq_spec 256 false _ 0 (by norm_num), pxSpecInteger_south]

/-- `xyz` of the degenerate south-pole bbox with `tms_style = true`: the
TMS subtraction wraps and `min_y` comes out as `u32::MAX`. -/
lemma xyz_south_eval :
    xyz new ⟨0, -90, 0, -90⟩ 0 true "WGS84" = some ⟨0, 4294967295, 0, 0⟩ := by
  rw [xyz_eq_bind]
  have hsrs : ¬ (("WGS84" : String) = "900913") := by decide
  rw [if_neg hsrs]
  have hp : px new ⟨(BBox.mk 0 (-90) 0 (-90)).w, (BBox.mk 0 (-90) 0 (-90)).s⟩
      ((0 : ℕ) : ℝ) = some ⟨128, 256⟩ := px_south_eval
  rw [hp]
  have hraw : xyzRaw new ⟨128, 256⟩ ⟨128, 256⟩ = ⟨0, 0, 0, 1⟩ := by
    have e1 : u32OfF64 ((XYPoint.mk (128 : ℝ) 256).x / ((new).size : ℝ)) = 0 := by
      show u32OfF64 ((128 : ℝ) / ((256 : ℕ) : ℝ)) = 0
      exact u32OfF64_eq 0 (by norm_num) (by norm_num) (by norm_num)
    have e2 : u32OfF64 (((XYPoint.mk (128 : ℝ) 256).x - 1) / ((new).size : ℝ)) = 0 := by
      show u32OfF64 (((128 : ℝ) - 1) / ((256 : ℕ) : ℝ)) = 0
      exact u32OfF64_eq 0 (by norm_num) (by norm_num) (by norm_num)
    have e3 : u32OfF64 ((XYPoint.mk (128 : ℝ) 256).y / ((new).size : ℝ)) = 1 := by
      show u32OfF64 ((256 : ℝ) / ((256 : ℕ) : ℝ)) = 1
      exact u32OfF64_eq 1 (by norm_num) (by norm_num) (by norm_num)
    have e4 : u32OfF64 (((XYPoint.mk (128 : ℝ) 256).y - 1) / ((new).size : ℝ)) = 0 := by
      show u32OfF64 (((256 : ℝ) - 1) / ((256 : ℕ) : ℝ)) = 0
      exact u32OfF64_eq 0 (by norm_num) (by norm_num) (by norm_num)
    rw [xyzRaw_eval new _ _ 0 0 1 0 e1 e2 e3 e4]
    norm_num
  simp [hraw, xyzFlip, u32pow2, u32sub]

/-- Counterexample to C1: on the degenerate bbox `{0, -90, 0, -90}` at
zoom 0 with `tms_style = true`, `xyz` returns `min_y = 4294967295 >
max_y = 0` (the TMS u32 subtraction wraps; a debug build panics there). -/
theorem c1_counterexample :
    xyz new ⟨0, -90, 0, -90⟩ 0 true "WGS84" = some ⟨0, 4294967295, 0, 0⟩ ∧
      ¬ ((4294967295 : ℕ) ≤ 0) :=
  ⟨xyz_south_eval, by norm_num⟩

/-- Witness for the amended C1 at a concrete evaluated input. -/
theorem c1_witness :
    (XYZBounds.mk 0 0 0 0).min_x ≤ (XYZBounds.mk 0 0 0 0).max_x ∧
      (XYZBounds.mk 0 0 0 0).min_y ≤ (XYZBounds.mk 0 0 0 0).max_y :=
  (c1_amended_xyz_ordering 256 false ⟨0, 0, 0, 0⟩ 0 "WGS84").1 ⟨0, 0, 0, 0⟩
    xyz_zero_eval

/-! ### Claim C10: saturating casts and the Mercator latitude limit -/

lemma div_nonpos_of_np_nn {a b : ℝ} (ha : a ≤ 0) (hb : 0 ≤ b) : a / b ≤ 0 := by
  rw [div_nonpos_iff]
  exact Or.inr ⟨ha, hb⟩

lemma mercatorLatLimit_le_90 : mercatorLatLimit ≤ 90 := by
  unfold mercatorLatLimit toDegrees
  have h := Real.arctan_lt_pi_div_two (Real.sinh Real.pi)
  have hpi := Real.pi_pos
  have h2 : Real.arctan (Real.sinh Real.pi) * (180 / Real.pi) ≤
      (Real.pi / 2) * (180 / Real.pi) :=
    mul_le_mul_of_nonneg_right h.le (by positivity)
  have h3 : (Real.pi / 2) * (180 / Real.pi) = 90 := by
    field_simp
    ring
  linarith

/-- For latitudes between the Mercator limit and 90°, the (clamped) sine
term makes the integer-path y pixel value nonpositive. -/
lemma pxSpecInteger_y_nonpos (size : ℕ) (anti : Bool) (p : LonLatPoint)
    (z : ℕ) (hs : 0 < size) (hlat1 : mercatorLatLimit ≤ p.lat)
    (hlat2 : p.lat ≤ 90) : (pxSpecInteger size anti p z).y ≤ 0 := by
  have hπ := Real.pi_pos
  have htanh1 : Real.sinh Real.pi / Real.cosh Real.pi ≤
      Real.sin (toRadians p.lat) := by
    have h1 : Real.arctan (Real.sinh Real.pi) ≤ toRadians p.lat := by
      calc Real.arctan (Real.sinh Real.pi) = toRadians mercatorLatLimit := by
            rw [mercatorLatLimit, toRadians_toDegrees]
        _ ≤ toRadians p.lat := by
            unfold toRadians
            exact mul_le_mul_of_nonneg_right hlat1 (by positivity)
    have h2 : toRadians p.lat ≤ Real.pi / 2 := by
      unfold toRadians
      nlinarith
    have h3 : -(Real.pi / 2) ≤ Real.arctan (Real.sinh Real.pi) :=
      (Real.arctan_mem_Ioo (Real.sinh Real.pi)).1.le
    calc Real.sinh Real.pi / Real.cosh Real.pi
        = Real.sin (Real.arctan (Real.sinh Real.pi)) :=
          (sin_arctan_sinh Real.pi).symm
      _ ≤ Real.sin (toRadians p.lat) := by
          exact Real.strictMonoOn_sin.monotoneOn ⟨h3, le_trans h1 h2⟩
            ⟨le_trans h3 h1, h2⟩ h1
  have hclamp : Real.sinh Real.pi / Real.cosh Real.pi ≤
      fClamp (Real.sin (toRadians p.lat)) (-0.9999) 0.9999 := by
    have hmin : Real.sinh Real.pi / Real.cosh Real.pi ≤
        min 0.9999 (Real.sin (toRadians p.lat)) :=
      le_min sinh_div_cosh_pi_le htanh1
    exact le_trans hmin (le_max_right _ _)
  have hlt1 : fClamp (Real.sin (toRadians p.lat)) (-0.9999) 0.9999 < 1 := by
    have hle : fClamp (Real.sin (toRadians p.lat)) (-0.9999) 0.9999 ≤ 0.9999 := by
      unfold fClamp
      exact max_le (by norm_num) (min_le_left _ _)
    linarith
  have hL : 2 * Real.pi ≤ Real.log
      ((1 + fClamp (Real.sin (toRadians p.lat)) (-0.9999) 0.9999) /
        (1 - fClamp (Real.sin (toRadians p.lat)) (-0.9999) 0.9999)) := by
    have hgt : -1 < Real.sinh Real.pi / Real.cosh Real.pi :=
      neg_one_lt_sinh_div_cosh Real.pi
    have hratio := one_add_div_one_sub_le_of_le hgt hclamp hlt1
    rw [ratio_of_sinh_div_cosh] at hratio
    calc 2 * Real.pi = Real.log (Real.exp (2 * Real.pi)) :=
          (Real.log_exp _).symm
      _ ≤ _ := Real.log_le_log (Real.exp_pos _) hratio
  simp only [pxSpecInteger]
  set f := fClamp (Real.sin (toRadians p.lat)) (-0.9999) 0.9999 with hf
  have hsz : (0 : ℝ) < (size : ℝ) * 2 ^ z := by positivity
  have harg : (size : ℝ) * 2 ^ z / 2 +
      0.5 * Real.log ((1 + f) / (1 - f)) *
        (-((size : ℝ) * 2 ^ z / (2 * Real.pi))) ≤ 0 := by
    have key : (size : ℝ) * 2 ^ z / 2 +
        0.5 * Real.log ((1 + f) / (1 - f)) *
          (-((size : ℝ) * 2 ^ z / (2 * Real.pi))) =
        ((size : ℝ) * 2 ^ z) * (2 * Real.pi - Real.log ((1 + f) / (1 - f))) /
          (4 * Real.pi) := by
      field_simp
      ring
    rw [key]
    apply div_nonpos_of_np_nn _ (by positivity)
    nlinarith [mul_nonneg hsz.le (sub_nonneg.mpr hL)]
  exact le_trans (min_le_right _ _) (fRound_nonpos harg)

/-- C10 (amended): the floored pixel-to-tile quotients are cast with
saturation, so any nonpositive quotient maps to tile index 0 (all four
u32 indices are trivially ≥ 0); and with `tms_style = false` a bbox whose
latitudes lie between the Mercator latitude limit and 90° yields
`min_y = 0` (beyond 90° the sine is no longer above `tanh π` and the
property fails). -/
theorem c10_saturating_cast_min_y :
    (∀ q : ℝ, q < 0 → u32OfF64 q = 0) ∧
    (∀ (size : ℕ) (anti : Bool) (bb : BBox) (zoom : ℕ) (srs : String),
      0 < size → srs ≠ "900913" →
      mercatorLatLimit ≤ bb.s → bb.s ≤ 90 →
      mercatorLatLimit ≤ bb.n → bb.n ≤ 90 →
      ∀ b, xyz (new_with_size_and_antimeridian size anti) bb zoom false srs =
        some b → b.min_y = 0) := by
  constructor
  · intro q hq
    exact u32OfF64_nonpos hq.le
  · intro size anti bb zoom srs hs hsrs hs1 hs2 hn1 hn2 b h
    have hz30 : zoom < 30 := by
      rw [xyz_eq_bind] at h
      simp only [Option.bind_eq_some, Option.map_eq_some'] at h
      obtain ⟨pll, hpll, _, _, _⟩ := h
      exact px_some_imp_lt30 size anti _ zoom pll hpll
    rw [xyz_eq_bind, if_neg hsrs] at h
    simp only [Option.bind_eq_some, Option.map_eq_some', Bool.false_eq_true,
      if_false] at h
    obtain ⟨pll, hpll, pur, hpur, hb⟩ := h
    rw [px_int_eq_spec size anti _ zoom hz30] at hpur
    simp only [Option.some.injEq] at hpur
    have hy : pur.y ≤ 0 := by
      rw [← hpur]
      exact pxSpecInteger_y_nonpos size anti _ zoom hs hn1 hn2
    have hy0 : u32OfF64 (pur.y /
        ((new_with_size_and_antimeridian size anti).size : ℝ)) = 0 :=
      u32OfF64_nonpos (div_nonpos_of_np_nn hy (by positivity))
    rw [← hb]
    simp only [xyzRaw, hy0]
    exact Nat.zero_min _

set_option maxHeartbeats 1000000 in
/-- Numeric bounds for the C10 counterexample: at `p = (0, 100)` and
zoom 5 the integer-path y pixel lies in `[769, 1023]`. -/
lemma c10ce_y_bounds :
    (769 : ℝ) ≤ (pxSpecInteger 256 false ⟨0, 100⟩ 5).y ∧
      (pxSpecInteger 256 false ⟨0, 100⟩ 5).y ≤ 1023 := by
  simp only [pxSpecInteger]
  rw [show (((256 : ℕ) : ℝ)) * 2 ^ (5 : ℕ) = 8192 by norm_num]
  have hsin : Real.sin (toRadians (100 : ℝ)) = Real.cos (Real.pi / 18) := by
    rw [show toRadians (100 : ℝ) = 5 * Real.pi / 9 by unfold toRadians; ring,
      ← Real.cos_pi_div_two_sub,
      show Real.pi / 2 - 5 * Real.pi / 9 = -(Real.pi / 18) by ring,
      Real.cos_neg]
  have hx1 : (0.1745328 : ℝ) ≤ Real.pi / 18 := by
    have := Real.pi_gt_d6
    linarith
  have hx2 : Real.pi / 18 ≤ 0.1745330 := by
    have := Real.pi_lt_d6
    linarith
  have habs : |Real.pi / 18| ≤ 1 := by
    rw [abs_of_nonneg (by positivity)]
    linarith
  have hb := Real.cos_bound habs
  rw [abs_le, abs_of_nonneg (show (0 : ℝ) ≤ Real.pi / 18 by positivity)] at hb
  have hx2sq : (Real.pi / 18) ^ 2 ≤ 0.1745330 ^ 2 :=
    pow_le_pow_left₀ (by positivity) hx2 2
  have hx1sq : (0.1745328 : ℝ) ^ 2 ≤ (Real.pi / 18) ^ 2 :=
    pow_le_pow_left₀ (by norm_num) hx1 2
  have hx4 : (Real.pi / 18) ^ 4 ≤ 0.1745330 ^ 4 :=
    pow_le_pow_left₀ (by positivity) hx2 4
  have hx4nn : (0 : ℝ) ≤ (Real.pi / 18) ^ 4 := by positivity
  have hc1 : (0.98472 : ℝ) ≤ Real.cos (Real.pi / 18) := by
    nlinarith [hb.1, hx2sq, hx4]
  have hc2 : Real.cos (Real.pi / 18) ≤ 0.98482 := by
    nlinarith [hb.2, hx1sq, hx4nn]
  rw [hsin, fClamp_eq_self (by linarith) (by linarith)]
  have hden : (0 : ℝ) < 1 - Real.cos (Real.pi / 18) := by linarith
  have hnum : (0 : ℝ) < 1 + Real.cos (Real.pi / 18) := by linarith
  have hr_lo : (129.5 : ℝ) ≤
      (1 + Real.cos (Real.pi / 18)) / (1 - Real.cos (Real.pi / 18)) := by
    rw [le_div_iff₀ hden]
    linarith
  have hr_hi : (1 + Real.cos (Real.pi / 18)) / (1 - Real.cos (Real.pi / 18)) ≤
      131 := by
    rw [div_le_iff₀ hden]
    linarith
  have hrpos : (0 : ℝ) <
      (1 + Real.cos (Real.pi / 18)) / (1 - Real.cos (Real.pi / 18)) :=
    div_pos hnum hden
  have hL_lo : (4.72 : ℝ) ≤ Real.log
      ((1 + Real.cos (Real.pi / 18)) / (1 - Real.cos (Real.pi / 18))) := by
    rw [Real.le_log_iff_exp_le hrpos]
    have h059 : Real.exp 0.59 ≤ 1.805 := by
      have hb2 := Real.exp_bound (x := 0.59)
        (by rw [abs_of_nonneg (by norm_num)]; norm_num)
        (show 0 < 4 by norm_num)
      rw [abs_le, abs_of_nonneg (show (0 : ℝ) ≤ 0.59 by norm_num)] at hb2
      have h1 := hb2.2
      simp only [Finset.sum_range_succ, Finset.sum_range_zero] at h1
      norm_num [Nat.factorial] at h1
      linarith
    have he : Real.exp 4.72 ≤ 113 := by
      calc Real.exp 4.72 = Real.exp 0.59 ^ 8 := by
            rw [← Real.exp_nat_mul]
            norm_num
        _ ≤ 1.805 ^ 8 := pow_le_pow_left₀ (Real.exp_pos _).le h059 8
        _ ≤ 113 := by norm_num
    linarith
  have hL_hi : Real.log
      ((1 + Real.cos (Real.pi / 18)) / (1 - Real.cos (Real.pi / 18))) ≤ 5.1 := by
    rw [Real.log_le_iff_le_exp hrpos]
    have h06375 : (1.8838 : ℝ) ≤ Real.exp 0.6375 := by
      have hs := Real.sum_le_exp_of_nonneg (show (0 : ℝ) ≤ 0.6375 by norm_num) 4
      simp only [Finset.sum_range_succ, Finset.sum_range_zero] at hs
      norm_num [Nat.factorial] at hs
      linarith
    have he : (158 : ℝ) ≤ Real.exp 5.1 := by
      calc (158 : ℝ) ≤ 1.8838 ^ 8 := by norm_num
        _ ≤ Real.exp 0.6375 ^ 8 := pow_le_pow_left₀ (by norm_num) h06375 8
        _ = Real.exp 5.1 := by
            rw [← Real.exp_nat_mul]
            norm_num
    linarith
  have hπ0 := Real.pi_pos
  have hπ1 := Real.pi_gt_d6
  have hπ2 := Real.pi_lt_d6
  set L := Real.log
    ((1 + Real.cos (Real.pi / 18)) / (1 - Real.cos (Real.pi / 18))) with hLdef
  have hyraw : (8192 : ℝ) / 2 + 0.5 * L * (-(8192 / (2 * Real.pi))) =
      4096 - 2048 * L / Real.pi := by
    field_simp
    ring
  rw [hyraw]
  have hq_hi : 2048 * L / Real.pi ≤ 3327.5 := by
    rw [div_le_iff₀ hπ0]
    linarith
  have hq_lo : (3072.5 : ℝ) < 2048 * L / Real.pi := by
    rw [lt_div_iff₀ hπ0]
    linarith
  have h0 : (0 : ℝ) ≤ 4096 - 2048 * L / Real.pi := by linarith
  have hry_lo := le_fRound_of_le 769 h0 (by push_cast; linarith)
  have hry_hi := fRound_le_of_lt 1023 h0 (by push_cast; linarith)
  push_cast at hry_lo hry_hi
  constructor
  · exact le_min (by norm_num) hry_lo
  · exact le_trans (min_le_right _ _) hry_hi

/-- `pxSpecInteger` x-pixel at lon 0, zoom 5 (256px tiles). -/
lemma c10ce_x : (pxSpecInteger 256 false ⟨0, 100⟩ 5).x = 4096 := by
  simp only [pxSpecInteger]
  rw [show (((256 : ℕ) : ℝ)) * 2 ^ (5 : ℕ) = 8192 by norm_num,
    show (8192 : ℝ) / 2 + 0 * ((8192 : ℝ) / 360) = ((4096 : ℕ) : ℝ) by norm_num,
    fRound_natCast]
  norm_num [min_def]

set_option maxHeartbeats 1000000 in
/-- `xyz` of the degenerate bbox `{0, 100, 0, 100}` (latitude beyond 90°)
at zoom 5: `min_y = 3`, not 0. -/
lemma xyz_lat100_eval :
    xyz new ⟨0, 100, 0, 100⟩ 5 false "WGS84" = some ⟨15, 3, 16, 3⟩ := by
  rw [xyz_eq_bind]
  have hsrs : ¬ (("WGS84" : String) = "900913") := by decide
  rw [if_neg hsrs]
  have hp : px new ⟨(BBox.mk 0 100 0 100).w, (BBox.mk 0 100 0 100).s⟩
      ((5 : ℕ) : ℝ) = some (pxSpecInteger 256 false ⟨0, 100⟩ 5) :=
    px_int_eq_spec 256 false ⟨0, 100⟩ 5 (by norm_num)
  rw [hp]
  obtain ⟨hy1, hy2⟩ := c10ce_y_bounds
  have hraw : xyzRaw new (pxSpecInteger 256 false ⟨0, 100⟩ 5)
      (pxSpecInteger 256 false ⟨0, 100⟩ 5) = ⟨15, 3, 16, 3⟩ := by
    have e1 : u32OfF64 ((pxSpecInteger 256 false ⟨0, 100⟩ 5).x /
        ((new).size : ℝ)) = 16 := by
      rw [c10ce_x]
      show u32OfF64 ((4096 : ℝ) / ((256 : ℕ) : ℝ)) = 16
      exact u32OfF64_eq 16 (by norm_num) (by norm_num) (by norm_num)
    have e2 : u32OfF64 (((pxSpecInteger 256 false ⟨0, 100⟩ 5).x - 1) /
        ((new).size : ℝ)) = 15 := by
      rw [c10ce_x]
      show u32OfF64 (((4096 : ℝ) - 1) / ((256 : ℕ) : ℝ)) = 15
      exact u32OfF64_eq 15 (by norm_num) (by norm_num) (by norm_num)
    have e3 : u32OfF64 ((pxSpecInteger 256 false ⟨0, 100⟩ 5).y /
        ((new).size : ℝ)) = 3 := by
      apply u32OfF64_eq 3 _ _ (by norm_num)
      · show ((3 : ℕ) : ℝ) ≤ _
        rw [show ((new).size : ℝ) = ((256 : ℕ) : ℝ) from rfl]
        rw [le_div_iff₀ (by norm_num)]
        push_cast
        linarith
      · show _ < ((3 : ℕ) : ℝ) + 1
        rw [show ((new).size : ℝ) = ((256 : ℕ) : ℝ) from rfl]
        rw [div_lt_iff₀ (by norm_num)]
        push_cast
        linarith
    have e4 : u32OfF64 (((pxSpecInteger 256 false ⟨0, 100⟩ 5).y - 1) /
        ((new).size : ℝ)) = 3 := by
      apply u32OfF64_eq 3 _ _ (by norm_num)
      · show ((3 : ℕ) : ℝ) ≤ _
        rw [show ((new).size : ℝ) = ((256 : ℕ) : ℝ) from rfl]
        rw [le_div_iff₀ (by norm_num)]
        push_cast
        linarith
      · show _ < ((3 : ℕ) : ℝ) + 1
        rw [show ((new).size : ℝ) = ((256 : ℕ) : ℝ) from rfl]
        rw [div_lt_iff₀ (by norm_num)]
        push_cast
        linarith
    rw [xyzRaw_eval new _ _ 16 15 3 3 e1 e2 e3 e4]
    norm_num
  simp [hraw]

/-- Counterexample to C10: the bbox `{0, 100, 0, 100}` lies entirely at
latitudes above the Mercator limit, yet `xyz` at zoom 5 (tms off) yields
`min_y = 3 ≠ 0` (beyond 90° the sine of the latitude falls back below
`tanh π`). -/
theorem c10_counterexample :
    xyz new ⟨0, 100, 0, 100⟩ 5 false "WGS84" = some ⟨15, 3, 16, 3⟩ ∧
      (3 : ℕ) ≠ 0 :=
  ⟨xyz_lat100_eval, by norm_num⟩

/-- `pxSpecInteger` x-pixel at lon 0, zoom 0 (256px tiles). -/
lemma pxSpecInteger_north_x : (pxSpecInteger 256 false ⟨0, 90⟩ 0).x = 128 := by
  simp only [pxSpecInteger]
  rw [show (((256 : ℕ) : ℝ)) * 2 ^ (0 : ℕ) = 256 by norm_num,
    show (256 : ℝ) / 2 + 0 * ((256 : ℝ) / 360) = ((128 : ℕ) : ℝ) by norm_num,
    fRound_natCast]
  norm_num [min_def]

/-- `xyz` of the degenerate north-pole-band bbox `{0, 90, 0, 90}`. -/
lemma xyz_north_eval :
    xyz new ⟨0, 90, 0, 90⟩ 0 false "WGS84" = some ⟨0, 0, 0, 0⟩ := by
  rw [xyz_eq_bind]
  have hsrs : ¬ (("WGS84" : String) = "900913") := by decide
  rw [if_neg hsrs]
  have hp : px new ⟨(BBox.mk 0 90 0 90).w, (BBox.mk 0 90 0 90).s⟩
      ((0 : ℕ) : ℝ) = some (pxSpecInteger 256 false ⟨0, 90⟩ 0) :=
    px_int_eq_spec 256 false ⟨0, 90⟩ 0 (by norm_num)
  rw [hp]
  have hyle : (pxSpecInteger 256 false ⟨0, 90⟩ 0).y ≤ 0 :=
    pxSpecInteger_y_nonpos 256 false ⟨0, 90⟩ 0 (by norm_num)
      mercatorLatLimit_le_90 (by norm_num)
  have hraw : xyzRaw new (pxSpecInteger 256 false ⟨0, 90⟩ 0)
      (pxSpecInteger 256 false ⟨0, 90⟩ 0) = ⟨0, 0, 0, 0⟩ := by
    have e1 : u32OfF64 ((pxSpecInteger 256 false ⟨0, 90⟩ 0).x /
        ((new).size : ℝ)) = 0 := by
      rw [pxSpecInteger_north_x]
      show u32OfF64 ((128 : ℝ) / ((256 : ℕ) : ℝ)) = 0
      exact u32OfF64_eq 0 (by norm_num) (by norm_num) (by norm_num)
    have e2 : u32OfF64 (((pxSpecInteger 256 false ⟨0, 90⟩ 0).x - 1) /
        ((new).size : ℝ)) = 0 := by
      rw [pxSpecInteger_north_x]
      show u32OfF64 (((128 : ℝ) - 1) / ((256 : ℕ) : ℝ)) = 0
      exact u32OfF64_eq 0 (by norm_num) (by norm_num) (by norm_num)
    have e3 : u32OfF64 ((pxSpecInteger 256 false ⟨0, 90⟩ 0).y /
        ((new).size : ℝ)) = 0 :=
      u32OfF64_nonpos (div_nonpos_of_np_nn hyle (by positivity))
    have e4 : u32OfF64 (((pxSpecInteger 256 false ⟨0, 90⟩ 0).y - 1) /
        ((new).size : ℝ)) = 0 :=
      u32OfF64_nonpos (div_nonpos_of_np_nn (by linarith) (by positivity))
    rw [xyzRaw_eval new _ _ 0 0 0 0 e1 e2 e3 e4]
    norm_num
  simp [hraw]

/-- Witness for the amended C10: the bbox `{0, 90, 0, 90}` lies in the
band between the Mercator limit and 90° and yields `min_y = 0`. -/
theorem c10_witness : (XYZBounds.mk 0 0 0 0).min_y = 0 :=
  c10_saturating_cast_min_y.2 256 false ⟨0, 90, 0, 90⟩ 0 "WGS84"
    (by norm_num) (by decide) mercatorLatLimit_le_90 (by norm_num)
    mercatorLatLimit_le_90 (by norm_num) ⟨0, 0, 0, 0⟩ xyz_north_eval

/-! ### Claim C8: the antimeridian test vector -/

set_option maxHeartbeats 1000000 in
/-- The integer-path pixel value at `(lon 250, lat 3)`, zoom 4, with the
antimeridian expansion: exactly `(4892, 2014)`. -/
lemma pxSpecInteger_c8 : pxSpecInteger 256 true ⟨250, 3⟩ 4 = ⟨4892, 2014⟩ := by
  simp only [pxSpecInteger]
  rw [show (((256 : ℕ) : ℝ)) * 2 ^ (4 : ℕ) = 4096 by norm_num]
  have hsin3 : Real.sin (toRadians (3 : ℝ)) = Real.sin (Real.pi / 60) := by
    rw [show toRadians (3 : ℝ) = Real.pi / 60 by unfold toRadians; ring]
  have hx1 : (0.0523598 : ℝ) ≤ Real.pi / 60 := by
    have := Real.pi_gt_d6
    linarith
  have hx2 : Real.pi / 60 ≤ 0.0523599 := by
    have := Real.pi_lt_d6
    linarith
  have hxpos : (0 : ℝ) ≤ Real.pi / 60 := by positivity
  have habs : |Real.pi / 60| ≤ 1 := by
    rw [abs_of_nonneg hxpos]
    linarith
  have hb := Real.sin_bound habs
  rw [abs_le, abs_of_nonneg hxpos] at hb
  have hx3hi : (Real.pi / 60) ^ 3 ≤ 0.0523599 ^ 3 := pow_le_pow_left₀ hxpos hx2 3
  have hx3lo : (0.0523598 : ℝ) ^ 3 ≤ (Real.pi / 60) ^ 3 :=
    pow_le_pow_left₀ (by norm_num) hx1 3
  have hx4 : (Real.pi / 60) ^ 4 ≤ 0.0523599 ^ 4 := pow_le_pow_left₀ hxpos hx2 4
  have hx4nn : (0 : ℝ) ≤ (Real.pi / 60) ^ 4 := by positivity
  have hf1 : (0.052335 : ℝ) ≤ Real.sin (Real.pi / 60) := by
    nlinarith [hb.1, hx3hi, hx4]
  have hf2 : Real.sin (Real.pi / 60) ≤ 0.052337 := by
    nlinarith [hb.2, hx3lo, hx4nn]
  rw [hsin3, fClamp_eq_self (by linarith) (by linarith)]
  have hden : (0 : ℝ) < 1 - Real.sin (Real.pi / 60) := by linarith
  have hrpos : (0 : ℝ) <
      (1 + Real.sin (Real.pi / 60)) / (1 - Real.sin (Real.pi / 60)) :=
    div_pos (by linarith) hden
  have hr_lo : (1.11045 : ℝ) ≤
      (1 + Real.sin (Real.pi / 60)) / (1 - Real.sin (Real.pi / 60)) := by
    rw [le_div_iff₀ hden]
    linarith
  have hr_hi : (1 + Real.sin (Real.pi / 60)) / (1 - Real.sin (Real.pi / 60)) ≤
      1.11046 := by
    rw [div_le_iff₀ hden]
    linarith
  have hL_lo : (0.1030 : ℝ) ≤ Real.log
      ((1 + Real.sin (Real.pi / 60)) / (1 - Real.sin (Real.pi / 60))) := by
    rw [Real.le_log_iff_exp_le hrpos]
    have hexp : Real.exp 0.103 ≤ 1.1086 := by
      have hb2 := Real.exp_bound (x := 0.103)
        (by rw [abs_of_nonneg (by norm_num)]; norm_num)
        (show 0 < 3 by norm_num)
      rw [abs_le, abs_of_nonneg (show (0 : ℝ) ≤ 0.103 by norm_num)] at hb2
      have h1 := hb2.2
      simp only [Finset.sum_range_succ, Finset.sum_range_zero] at h1
      norm_num [Nat.factorial] at h1
      linarith
    linarith
  have hL_hi : Real.log
      ((1 + Real.sin (Real.pi / 60)) / (1 - Real.sin (Real.pi / 60))) ≤
      0.1056 := by
    rw [Real.log_le_iff_le_exp hrpos]
    have hexp : (1.1111 : ℝ) ≤ Real.exp 0.1056 := by
      have hs := Real.sum_le_exp_of_nonneg (show (0 : ℝ) ≤ 0.1056 by norm_num) 3
      simp only [Finset.sum_range_succ, Finset.sum_range_zero] at hs
      norm_num [Nat.factorial] at hs
      linarith
    linarith
  have hπ0 := Real.pi_pos
  have hπ1 := Real.pi_gt_d6
  have hπ2 := Real.pi_lt_d6
  set L := Real.log
    ((1 + Real.sin (Real.pi / 60)) / (1 - Real.sin (Real.pi / 60))) with hLdef
  rw [XYPoint.mk.injEq]
  constructor
  · have hfr : fRound ((4096 : ℝ) / 2 + 250 * ((4096 : ℝ) / 360)) =
        ((4892 : ℕ) : ℝ) :=
      fRound_natCast_of_bounds 4892 (by norm_num) (by norm_num) (by norm_num)
    rw [hfr]
    norm_num [min_def]
  · have hyraw : (4096 : ℝ) / 2 + 0.5 * L * (-(4096 / (2 * Real.pi))) =
        2048 - 1024 * L / Real.pi := by
      field_simp
      ring
    rw [hyraw]
    have hq_hi : 1024 * L / Real.pi ≤ 34.5 := by
      rw [div_le_iff₀ hπ0]
      linarith
    have hq_lo : (33.5 : ℝ) < 1024 * L / Real.pi := by
      rw [lt_div_iff₀ hπ0]
      linarith
    have h0 : (0 : ℝ) ≤ 2048 - 1024 * L / Real.pi := by linarith
    have hfr : fRound (2048 - 1024 * L / Real.pi) = ((2014 : ℕ) : ℝ) :=
      fRound_natCast_of_bounds 2014 h0 (by push_cast; linarith)
        (by push_cast; linarith)
    rw [hfr]
    norm_num [min_def]

/-- C8: with tile size 256 and antimeridian mode enabled,
`px((250, 3), 4.0)` returns exactly `(4892, 2014)`. -/
theorem c8_px_antimeridian_example :
    px (new_with_size_and_antimeridian 256 true) ⟨250, 3⟩ 4 =
      some ⟨4892, 2014⟩ := by
  rw [show (4 : ℝ) = ((4 : ℕ) : ℝ) by norm_num,
    px_int_eq_spec 256 true ⟨250, 3⟩ 4 (by norm_num), pxSpecInteger_c8]

/-! ### Claim C5: fractional-zoom inverse consistency -/

/-- `cos (π/36)` (= sin 85°) is at most 0.996196: the latitude band
`|lat| < 85°` keeps the sine strictly inside the `±0.9999` clamp and the
y pixel inside the `ac` bound. -/
lemma cos_pi_div_36_le : Real.cos (Real.pi / 36) ≤ 0.996196 := by
  have hx1 : (0.0872664 : ℝ) ≤ Real.pi / 36 := by
    have := Real.pi_gt_d6
    linarith
  have hx2 : Real.pi / 36 ≤ 0.0872665 := by
    have := Real.pi_lt_d6
    linarith
  have hxpos : (0 : ℝ) ≤ Real.pi / 36 := by positivity
  have habs : |Real.pi / 36| ≤ 1 := by
    rw [abs_of_nonneg hxpos]
    linarith
  have hb := Real.cos_bound habs
  rw [abs_le, abs_of_nonneg hxpos] at hb
  have hx1sq : (0.0872664 : ℝ) ^ 2 ≤ (Real.pi / 36) ^ 2 :=
    pow_le_pow_left₀ (by norm_num) hx1 2
  have hx4 : (Real.pi / 36) ^ 4 ≤ 0.0872665 ^ 4 := pow_le_pow_left₀ hxpos hx2 4
  nlinarith [hb.2, hx1sq, hx4]

/-- For `|lat| < 85` the latitude sine stays strictly between
`-cos (π/36)` and `cos (π/36)`. -/
lemma sin_toRadians_bounds {lat : ℝ} (h : |lat| < 85) :
    -Real.cos (Real.pi / 36) < Real.sin (toRadians lat) ∧
      Real.sin (toRadians lat) < Real.cos (Real.pi / 36) := by
  have hπ0 := Real.pi_pos
  obtain ⟨h1, h2⟩ := abs_lt.mp h
  have hr1 : -(17 * Real.pi / 36) < toRadians lat := by
    unfold toRadians
    nlinarith
  have hr2 : toRadians lat < 17 * Real.pi / 36 := by
    unfold toRadians
    nlinarith
  have hmem : toRadians lat ∈ Set.Icc (-(Real.pi / 2)) (Real.pi / 2) := by
    constructor <;> [linarith; linarith]
  have hmem2 : (17 * Real.pi / 36) ∈ Set.Icc (-(Real.pi / 2)) (Real.pi / 2) := by
    constructor <;> [linarith; linarith]
  have hmem3 : (-(17 * Real.pi / 36)) ∈ Set.Icc (-(Real.pi / 2)) (Real.pi / 2) := by
    constructor <;> [linarith; linarith]
  have hcos : Real.sin (17 * Real.pi / 36) = Real.cos (Real.pi / 36) := by
    rw [← Real.cos_pi_div_two_sub]
    congr 1
    ring
  constructor
  · have := Real.strictMonoOn_sin hmem3 hmem hr1
    rw [Real.sin_neg, hcos] at this
    linarith
  · have := Real.strictMonoOn_sin hmem hmem2 hr2
    rw [hcos] at this
    linarith

set_option maxHeartbeats 1000000 in
/-- C5 (amended): for fractional zoom and `|lon| ≤ 180`, `|lat| < 85`,
`ll (px p zoom) zoom` recovers `p` exactly (no rounding occurs on either
side and no clamp is hit), which is stronger than 6-decimal-digit
recovery. -/
theorem c5_amended_roundtrip :
    ∀ (size : ℕ) (anti : Bool) (p : LonLatPoint) (zoom : ℝ),
      0 < size → is_float zoom → |p.lon| ≤ 180 → |p.lat| < 85 →
      (px (new_with_size_and_antimeridian size anti) p zoom).bind
        (fun q => ll (new_with_size_and_antimeridian size anti) q zoom) =
        some p := by
  intro size anti p zoom hs hf hlon hlat
  have hSpos : (0 : ℝ) < (size : ℝ) * (2 : ℝ) ^ zoom :=
    mul_pos (by exact_mod_cast hs) (Real.rpow_pos_of_pos two_pos zoom)
  have hπ0 := Real.pi_pos
  obtain ⟨hsin1, hsin2⟩ := sin_toRadians_bounds hlat
  have hc36 := cos_pi_div_36_le
  have hclamp : fClamp (Real.sin (toRadians p.lat)) (-0.9999) 0.9999 =
      Real.sin (toRadians p.lat) :=
    fClamp_eq_self (by linarith) (by linarith)
  set S := (size : ℝ) * (2 : ℝ) ^ zoom with hS
  set f := Real.sin (toRadians p.lat) with hfdef
  have hf1 : -(0.996196 : ℝ) < f := by linarith
  have hf2 : f < 0.996196 := by linarith
  have hfm1 : (-1 : ℝ) < f := by linarith
  have hf1m : f < 1 := by linarith
  have hx_le : S / 2 + p.lon * (S / 360) ≤ S * (if anti then (2 : ℝ) else 1) := by
    have he1 : (1 : ℝ) ≤ (if anti then (2 : ℝ) else 1) := by
      split <;> norm_num
    have h1 : p.lon * (S / 360) ≤ 180 * (S / 360) :=
      mul_le_mul_of_nonneg_right (abs_le.mp hlon).2 (by positivity)
    have h2 : (180 : ℝ) * (S / 360) = S / 2 := by ring
    nlinarith
  have hrpos : (0 : ℝ) < (1 + f) / (1 - f) :=
    div_pos (by linarith) (by linarith)
  have hlogge : -(2 * Real.pi) ≤ Real.log ((1 + f) / (1 - f)) := by
    have hmono := one_add_div_one_sub_le_of_le
      (show (-1 : ℝ) < -(0.996196 : ℝ) by norm_num) hf1.le hf1m
    have hval196 : (1 + -(0.996196 : ℝ)) / (1 - -(0.996196 : ℝ)) =
        0.003804 / 1.996196 := by norm_num
    rw [hval196] at hmono
    have hexp : Real.exp (-(2 * Real.pi)) ≤ 0.003804 / 1.996196 := by
      rw [Real.exp_neg]
      calc (Real.exp (2 * Real.pi))⁻¹ ≤ (525 : ℝ)⁻¹ :=
            inv_anti₀ (by norm_num) exp_two_pi_gt.le
        _ ≤ 0.003804 / 1.996196 := by norm_num
    calc -(2 * Real.pi) = Real.log (Real.exp (-(2 * Real.pi))) :=
          (Real.log_exp _).symm
      _ ≤ Real.log ((1 + f) / (1 - f)) :=
          Real.log_le_log (Real.exp_pos _) (le_trans hexp hmono)
  have hy_le : S / 2 + 0.5 * Real.log ((1 + f) / (1 - f)) *
      (-(S / (2 * Real.pi))) ≤ S := by
    have key : S / 2 + 0.5 * Real.log ((1 + f) / (1 - f)) *
        (-(S / (2 * Real.pi))) - S =
        -(S * (2 * Real.pi + Real.log ((1 + f) / (1 - f)))) / (4 * Real.pi) := by
      field_simp
      ring
    have hnum : (0 : ℝ) ≤ S * (2 * Real.pi + Real.log ((1 + f) / (1 - f))) :=
      mul_nonneg hSpos.le (by linarith)
    have hdiv : -(S * (2 * Real.pi + Real.log ((1 + f) / (1 - f)))) /
        (4 * Real.pi) ≤ 0 :=
      div_nonpos_of_np_nn (by linarith) (by positivity)
    linarith [key ▸ hdiv]
  have hval : pxSpecFractional size anti p zoom =
      ⟨S / 2 + p.lon * (S / 360),
       S / 2 + 0.5 * Real.log ((1 + f) / (1 - f)) * (-(S / (2 * Real.pi)))⟩ := by
    simp only [pxSpecFractional]
    rw [hclamp, min_eq_right hx_le, min_eq_right hy_le]
  rw [px_float_eq_spec size anti p zoom hf, hval]
  show ll (new_with_size_and_antimeridian size anti)
      ⟨S / 2 + p.lon * (S / 360),
       S / 2 + 0.5 * Real.log ((1 + f) / (1 - f)) * (-(S / (2 * Real.pi)))⟩
      zoom = some p
  rw [ll_float_eval size anti _ zoom hf, ← hS]
  have hlon_eq : (S / 2 + p.lon * (S / 360) - S / 2) / (S / 360) = p.lon := by
    field_simp
    ring
  have hg : (S / 2 + 0.5 * Real.log ((1 + f) / (1 - f)) *
      (-(S / (2 * Real.pi))) - S / 2) / (-(S / (2 * Real.pi))) =
      0.5 * Real.log ((1 + f) / (1 - f)) := by
    have hcc : -(S / (2 * Real.pi)) ≠ 0 := by
      have : (0 : ℝ) < S / (2 * Real.pi) := by positivity
      linarith
    field_simp
    ring
  have hmem1 : -(Real.pi / 2) ≤ toRadians p.lat := by
    obtain ⟨ha, hb⟩ := abs_lt.mp hlat
    unfold toRadians
    nlinarith
  have hmem2 : toRadians p.lat ≤ Real.pi / 2 := by
    obtain ⟨ha, hb⟩ := abs_lt.mp hlat
    unfold toRadians
    nlinarith
  rw [hlon_eq, hg, two_arctan_exp_sub_eq_arcsin hfm1 hf1m, hfdef,
    Real.arcsin_sin hmem1 hmem2, toDegrees_toRadians]

/-- Pixel value of the out-of-range point `(lon 1000, lat 0)` at the
fractional zoom 1/2: the x coordinate is clamped to the full extent. -/
lemma c5ce_px : px new ⟨1000, 0⟩ (1 / 2) =
    some ⟨((256 : ℕ) : ℝ) * (2 : ℝ) ^ ((1 : ℝ) / 2),
          ((256 : ℕ) : ℝ) * (2 : ℝ) ^ ((1 : ℝ) / 2) / 2⟩ := by
  have hSpos : (0 : ℝ) < ((256 : ℕ) : ℝ) * (2 : ℝ) ^ ((1 : ℝ) / 2) :=
    mul_pos (by norm_num) (Real.rpow_pos_of_pos two_pos _)
  rw [show SM.new = new_with_size_and_antimeridian 256 false from rfl,
    px_float_eq_spec 256 false _ _ is_float_half]
  simp only [Option.some.injEq, pxSpecFractional]
  rw [show toRadians ((LonLatPoint.mk (1000 : ℝ) 0).lat) = 0 from toRadians_zero,
    Real.sin_zero, fClamp_eq_self (by norm_num) (by norm_num)]
  rw [XYPoint.mk.injEq]
  constructor
  · rw [if_neg (by norm_num : ¬ (false = true)), mul_one]
    apply min_eq_left
    nlinarith
  · rw [show Real.log ((1 + (0 : ℝ)) / (1 - 0)) = 0 by norm_num [Real.log_one]]
    rw [show ((256 : ℕ) : ℝ) * (2 : ℝ) ^ ((1 : ℝ) / 2) / 2 +
      0.5 * 0 * (-(((256 : ℕ) : ℝ) * (2 : ℝ) ^ ((1 : ℝ) / 2) / (2 * Real.pi))) =
      ((256 : ℕ) : ℝ) * (2 : ℝ) ^ ((1 : ℝ) / 2) / 2 by ring]
    exact min_eq_right (by linarith)

/-- Counterexample to C5: at fractional zoom 1/2 the round trip on
`(lon 1000, lat 0)` returns longitude 180, not 1000 — the claim's
unrestricted longitude range fails (the x clamp loses the value). -/
theorem c5_counterexample :
    (px new ⟨1000, 0⟩ (1 / 2)).bind (fun q => ll new q (1 / 2)) =
      some ⟨180, 0⟩ ∧ ¬ (|(180 : ℝ) - 1000| < 1 / 10 ^ 6) := by
  constructor
  · rw [c5ce_px]
    show ll new ⟨((256 : ℕ) : ℝ) * (2 : ℝ) ^ ((1 : ℝ) / 2),
      ((256 : ℕ) : ℝ) * (2 : ℝ) ^ ((1 : ℝ) / 2) / 2⟩ (1 / 2) = some ⟨180, 0⟩
    have hSpos : (0 : ℝ) < ((256 : ℕ) : ℝ) * (2 : ℝ) ^ ((1 : ℝ) / 2) :=
      mul_pos (by norm_num) (Real.rpow_pos_of_pos two_pos _)
    rw [show SM.new = new_with_size_and_antimeridian 256 false from rfl,
      ll_float_eval 256 false _ _ is_float_half]
    simp only [Option.some.injEq]
    rw [LonLatPoint.mk.injEq]
    constructor
    · field_simp
      ring
    · rw [sub_self, zero_div, Real.exp_zero, Real.arctan_one,
        show (2 : ℝ) * (Real.pi / 4) - 0.5 * Real.pi = 0 by ring]
      unfold toDegrees
      exact zero_mul _
  · norm_num

/-- Witness for the amended C5 at the origin and zoom 1/2. -/
theorem c5_witness :
    (px (new_with_size_and_antimeridian 256 false) ⟨0, 0⟩ (1 / 2)).bind
      (fun q => ll (new_with_size_and_antimeridian 256 false) q (1 / 2)) =
      some ⟨0, 0⟩ :=
  c5_amended_roundtrip 256 false ⟨0, 0⟩ (1 / 2) (by norm_num) is_float_half
    (by norm_num) (by norm_num)

/-! ### Claim C2: panic behaviour -/

lemma not_is_float_30 : ¬ is_float (30 : ℝ) := by
  have h := not_is_float_natCast 30
  simpa using h

lemma usizeOfF64_30 : usizeOfF64 (30 : ℝ) = 30 := by
  have h := usizeOfF64_natCast 30 (by norm_num)
  simpa using h

/-- Counterexample to C2: `px` at whole-number zoom 30 panics (indexes the
30-entry scale tables out of bounds); in the model it returns `none`. -/
theorem c2_counterexample : px new ⟨0, 0⟩ 30 = none := by
  rw [px, if_neg not_is_float_30, usizeOfF64_30, new, new_zc_get?,
    new_bc_get?, new_cc_get?, new_ac_get?]
  norm_num

/-- C2 (amended): no public operation panics as long as the (whole-number)
zoom stays below the 30-entry table size: `px`/`ll` always return on
fractional zoom, and return on whole-number zoom whose `usize` cast is
below 30; `bbox`/`xyz` return for zoom below 30; `forward`, `inverse` and
`convert` are total functions by construction. Out-of-range coordinates
are handled by clamping/reordering, but whole-number zooms ≥ 30 panic. -/
theorem c2_amended_no_panic_below_30 :
    (∀ (m : SphericalMercator) (p : LonLatPoint) (zoom : ℝ), is_float zoom →
        (px m p zoom).isSome = true) ∧
    (∀ (size : ℕ) (anti : Bool) (p : LonLatPoint) (zoom : ℝ),
        ¬ is_float zoom → usizeOfF64 zoom < 30 →
        (px (new_with_size_and_antimeridian size anti) p zoom).isSome = true) ∧
    (∀ (m : SphericalMercator) (q : XYPoint) (zoom : ℝ), is_float zoom →
        (ll m q zoom).isSome = true) ∧
    (∀ (size : ℕ) (anti : Bool) (q : XYPoint) (zoom : ℝ),
        ¬ is_float zoom → usizeOfF64 zoom < 30 →
        (ll (new_with_size_and_antimeridian size anti) q zoom).isSome = true) ∧
    (∀ (size : ℕ) (anti : Bool) (x y zoom : ℕ) (tms : Bool) (srs : String),
        zoom < 30 →
        (bbox (new_with_size_and_antimeridian size anti) x y zoom tms
          srs).isSome = true) ∧
    (∀ (size : ℕ) (anti : Bool) (bb : BBox) (zoom : ℕ) (tms : Bool)
        (srs : String), zoom < 30 →
        (xyz (new_with_size_and_antimeridian size anti) bb zoom tms
          srs).isSome = true) := by
  refine ⟨?_, ?_, ?_, ?_, ?_, ?_⟩
  · intro m p zoom h
    rw [px, if_pos h]
    rfl
  · intro size anti p zoom h hz
    rw [px, if_neg h]
    simp only [new_zc_get?, new_bc_get?, new_cc_get?, new_ac_get?, hz, if_true]
    rfl
  · intro m q zoom h
    rw [ll, if_pos h]
    rfl
  · intro size anti q zoom h hz
    rw [ll, if_neg h]
    simp only [new_zc_get?, new_cc_get?, new_bc_get?, hz, if_true]
    rfl
  · intro size anti x y zoom tms srs hz
    simp only [bbox, new_size]
    rw [ll_int_eval size anti _ zoom hz, ll_int_eval size anti _ zoom hz]
    rfl
  · intro size anti bb zoom tms srs hz
    simp only [xyz, new_size]
    rw [px_int_eq_spec size anti _ zoom hz, px_int_eq_spec size anti _ zoom hz]
    rfl

/-- Witness for the amended C2 at fractional zoom 1/2 and at zoom 29. -/
theorem c2_witness :
    (px new ⟨0, 0⟩ (1 / 2)).isSome = true ∧
      (xyz new ⟨0, 0, 0, 0⟩ 29 false "WGS84").isSome = true :=
  ⟨c2_amended_no_panic_below_30.1 new ⟨0, 0⟩ (1 / 2) is_float_half,
   (c2_amended_no_panic_below_30.2.2.2.2.2) 256 false ⟨0, 0, 0, 0⟩ 29 false
     "WGS84" (by norm_num)⟩

/-! ### Claim C4: upper clamps only in `px` -/

/-- C4: In `px`, x is clamped from above to `ac * expansion` and y from
above to `ac` — the returned coordinates are exactly `min` of the bound
and the pre-clamp raw value — so any raw value below those bounds
(negative values included) passes through unchanged; there is no lower
clamp. -/
theorem c4_px_upper_clamp_only :
    ∀ (m : SphericalMercator) (p : LonLatPoint) (zoom : ℝ) (rx ry a : ℝ),
      pxRawX m p zoom = some rx → pxRawY m p zoom = some ry →
      pxAc m zoom = some a →
      px m p zoom = some ⟨min (a * m.expansion) rx, min a ry⟩ := by
  intro m p zoom rx ry a hrx hry hac
  by_cases hf : is_float zoom
  · rw [pxRawX, if_pos hf] at hrx
    rw [pxRawY, if_pos hf] at hry
    rw [pxAc, if_pos hf] at hac
    simp only [Option.some.injEq] at hrx hry hac
    rw [px, if_pos hf]
    simp only [ite_lt_min]
    rw [hrx, hry, hac]
  · rw [pxRawX, if_neg hf] at hrx
    rw [pxRawY, if_neg hf] at hry
    rw [pxAc, if_neg hf] at hac
    rcases hzc : m.zc.get? (usizeOfF64 zoom) with _ | d
    · rw [hzc] at hrx
      simp at hrx
    rcases hbc : m.bc.get? (usizeOfF64 zoom) with _ | bcz
    · rw [hzc, hbc] at hrx
      simp at hrx
    rcases hcc : m.cc.get? (usizeOfF64 zoom) with _ | ccz
    · rw [hzc, hcc] at hry
      simp at hry
    rw [hzc, hbc] at hrx
    rw [hzc, hcc] at hry
    simp only [Option.some.injEq] at hrx hry
    rcases hacq : m.ac.get? (usizeOfF64 zoom) with _ | acz
    · rw [hacq] at hac
      simp at hac
    rw [hacq] at hac
    simp only [Option.some.injEq] at hac
    rw [px, if_neg hf, hzc, hbc, hcc, hacq]
    simp only [ite_lt_min]
    rw [hrx, hry, hac]

lemma pxRawX_origin : pxRawX new ⟨0, 0⟩ 0 = some 128 := by
  rw [pxRawX, if_neg not_is_float_zero, usizeOfF64_zero, new,
    new_zc_get?, new_bc_get?]
  norm_num
  simpa using fRound_natCast 128

lemma pxRawY_origin : pxRawY new ⟨0, 0⟩ 0 = some 128 := by
  rw [pxRawY, if_neg not_is_float_zero, usizeOfF64_zero, new,
    new_zc_get?, new_cc_get?]
  rw [if_pos (by norm_num : (0 : ℕ) < 30)]
  have hcl : fClamp (Real.sin (toRadians (0 : ℝ))) (-(9999 / 10000)) (9999 / 10000) = 0 := by
    rw [toRadians_zero, Real.sin_zero,
      fClamp_eq_self (by norm_num) (by norm_num)]
  norm_num
  rw [hcl]
  norm_num [Real.log_one]
  simpa using fRound_natCast 128

lemma pxAc_256 : pxAc new 0 = some 256 := by
  rw [pxAc, if_neg not_is_float_zero, usizeOfF64_zero, new, new_ac_get?]
  rw [if_pos (by norm_num : (0 : ℕ) < 30)]
  norm_num

/-- Witness for C4 at the origin, zoom 0. -/
theorem c4_witness :
    px new ⟨0, 0⟩ 0 = some ⟨min (256 * new.expansion) 128, min 256 128⟩ :=
  c4_px_upper_clamp_only new ⟨0, 0⟩ 0 128 128 256
    pxRawX_origin pxRawY_origin pxAc_256

end SM
